import Mathlib

/-!
# Pull-request notifier: response mapping, fetch orchestration, token lookup

A shallow embedding of `github/main.go` and `github_pr_notify_http.go`.

* The HTTP round trip of `PostTo`, the shell run by `exec.Command` and the process
  environment are the outside world: they appear as explicit oracles (`Net`, `OS`)
  and every request that is issued is recorded in a `World`. The one shell command
  the program issues, `cat .env | grep KEY | cut -d '=' -f 2`, has a model of its
  own (`shell`), from which an `OS` is built for a given `.env` file.
* `log.Fatal` exits the process; it is the `fatal` constructor of the outcome types.
* `json.Unmarshal` is modelled on JSON trees, with the rules of `encoding/json`
  for struct targets: member names are matched to fields case-insensitively,
  unknown members are skipped, an absent member or `null` leaves the field as it
  is, a value of the wrong JSON type is an `UnmarshalTypeError`.
* Go `int` is the 64-bit `int`.
-/

namespace PrNotify

/-! ## JSON trees and response bodies -/

/-- A syntactically valid JSON text, as a tree. Number literals are split into
integer literals (`int`) and literals with a fraction or an exponent (`real`),
because only the former can be stored into a Go `int`. Object members keep the
order in which they appear in the text. -/
inductive Json where
  | null
  | bool (b : Bool)
  | int (n : Int)
  | real (literal : String)
  | str (s : String)
  | arr (items : List Json)
  | obj (members : List (String × Json))

/-- What `json.Unmarshal` can report. -/
inductive JsonError where
  | SyntaxError
  | UnmarshalTypeError
  deriving DecidableEq, Repr

/-- A response body: either a text that the syntax check of `json.Unmarshal` rejects, or
the JSON text of a tree. -/
inductive Body where
  | malformed (raw : String)
  | json (doc : Json)

/-! ## Field matching of encoding/json -/

/-- Case folding of one rune, as far as it can make a rune equal to an ASCII
letter: lower-case ASCII goes to upper case, U+017F (long s) folds with `S` and
U+212A (Kelvin sign) folds with `K`. -/
def foldRune (c : Char) : Nat :=
  let n := c.toNat
  if 97 ≤ n ∧ n ≤ 122 then n - 32
  else if n = 0x17F then 83
  else if n = 0x212A then 75
  else n

/-- The folded form of a member name. -/
def foldName (s : String) : List Nat :=
  s.toList.map foldRune

/-- Whether the object member `key` is stored into the struct field tagged `field`. -/
def matchesField (field key : String) : Bool :=
  foldName key == foldName field

/-! ## Decoding of leaves -/

/-- Whether an integer literal fits the 64-bit `int`. -/
def intFits (n : Int) : Bool :=
  decide (-9223372036854775808 ≤ n ∧ n ≤ 9223372036854775807)

/-- Decoding into a `string` field: `null` changes nothing, a string is stored, anything
else is a type error. -/
def decodeString : Json → String → Except JsonError String
  | .null, cur => .ok cur
  | .str s, _ => .ok s
  | _, _ => .error .UnmarshalTypeError

/-- Decoding into an `int` field: `null` changes nothing, an integer literal that fits
is stored, anything else is a type error. -/
def decodeInt : Json → Int → Except JsonError Int
  | .null, cur => .ok cur
  | .int n, _ => if intFits n then .ok n else .error .UnmarshalTypeError
  | _, _ => .error .UnmarshalTypeError

/-- The members of an object are decoded one after the other into the value the
previous ones left. -/
def decodeMembers {α : Type} (field : String → Json → α → Except JsonError α) :
    List (String × Json) → α → Except JsonError α
  | [], cur => .ok cur
  | kv :: rest, cur =>
    match field kv.1 kv.2 cur with
    | .ok next => decodeMembers field rest next
    | .error e => .error e

/-- Decoding into a struct: `null` changes nothing, an object is decoded member by
member, anything else is a type error. -/
def decodeStruct {α : Type} (field : String → Json → α → Except JsonError α) :
    Json → α → Except JsonError α
  | .null, cur => .ok cur
  | .obj members, cur => decodeMembers field members cur
  | _, _ => .error .UnmarshalTypeError

/-- A Go slice: its elements, and what the backing array still holds behind them
(`spare`); the array is zero beyond that. The spare part matters because
`encoding/json` decodes an array element into the slot of the backing array it lands
in, without clearing the slot first. A nil slice and an empty one are not told apart. -/
structure GoSlice (α : Type) where
  elems : List α
  spare : List α
  deriving DecidableEq, Repr

/-- The nil slice. -/
def GoSlice.nil {α : Type} : GoSlice α := ⟨[], []⟩

/-- The elements of a JSON array are decoded into the slots of the backing array,
in order; a slot the array does not have yet is a zero element. -/
def decodeElems {α : Type} (elem : Json → α → Except JsonError α) (zero : α) :
    List Json → List α → Except JsonError (List α)
  | [], _ => .ok []
  | v :: vs, backing =>
    match elem v (backing.headD zero) with
    | .error e => .error e
    | .ok x =>
      match decodeElems elem zero vs backing.tail with
      | .error e => .error e
      | .ok xs => .ok (x :: xs)

/-- Decoding into a slice: `null` gives the nil slice, an empty array a fresh empty
slice, a non-empty array is decoded slot by slot and the slice is cut to its
length. -/
def decodeSlice {α : Type} (elem : Json → α → Except JsonError α) (zero : α) :
    Json → GoSlice α → Except JsonError (GoSlice α)
  | .null, _ => .ok GoSlice.nil
  | .arr [], _ => .ok GoSlice.nil
  | .arr (v :: vs), s =>
    match decodeElems elem zero (v :: vs) (s.elems ++ s.spare) with
    | .error e => .error e
    | .ok xs => .ok ⟨xs, (s.elems ++ s.spare).drop (v :: vs).length⟩
  | _, _ => .error .UnmarshalTypeError

/-! ## The response structs of the two queries -/

/-- The struct with the one field `Username` (tag `username`): `PrAuthor` of a node and
`Reviewer` of a review. -/
structure UserRef where
  Username : String
  deriving DecidableEq, Repr

/-- An element of `Reviews.Nodes`. -/
structure ReviewNode where
  Reviewer : UserRef
  PublishedAt : String
  State : String
  deriving DecidableEq, Repr

/-- The field `Reviews` of a node. -/
structure ReviewConn where
  Nodes : GoSlice ReviewNode
  deriving DecidableEq, Repr

/-- The field `Repository` of a node of the user query. -/
structure RepoRef where
  Name : String
  deriving DecidableEq, Repr

/-- An element of `PullRequests.Nodes`. The node structs of the two queries have the
same fields, except that only the user query's has `Repository`; for the
repository query that field is never written and stays zero. -/
structure PRNode where
  Repository : RepoRef
  Number : Int
  Title : String
  Permalink : String
  UpdatedAt : String
  State : String
  Additions : Int
  Deletions : Int
  ChangedFiles : Int
  PrAuthor : UserRef
  ReviewDecision : String
  Reviews : ReviewConn
  deriving DecidableEq, Repr

/-- The field `PullRequests` of `Repo` and of `User`. -/
structure PRConn where
  Nodes : GoSlice PRNode
  deriving DecidableEq, Repr

/-- The field `Data.Repo` of the repository query's `PullRequestsQuery`. -/
structure RepoData where
  Name : String
  PullRequests : PRConn
  deriving DecidableEq, Repr

/-- The field `Data.User` of the user query's `PullRequestsQuery`. -/
structure UserData where
  Login : String
  PullRequests : PRConn
  deriving DecidableEq, Repr

/-- The field `Data` of the repository query's `PullRequestsQuery`. -/
structure RepoQueryData where
  Repo : RepoData
  deriving DecidableEq, Repr

/-- The field `Data` of the user query's `PullRequestsQuery`. -/
structure UserQueryData where
  User : UserData
  deriving DecidableEq, Repr

/-- `PullRequestsQuery` of `getRepoPullRequests`. -/
structure RepoQuery where
  Data : RepoQueryData
  deriving DecidableEq, Repr

/-- `PullRequestsQuery` of `getPullRequestsForUser`. -/
structure UserQuery where
  Data : UserQueryData
  deriving DecidableEq, Repr

/-- Which of the two queries a node struct belongs to. -/
inductive QueryKind where
  | repo
  | user
  deriving DecidableEq, Repr

/-! The zero values of the response structs. -/

def UserRef.zero : UserRef := ⟨""⟩
def ReviewNode.zero : ReviewNode := ⟨UserRef.zero, "", ""⟩
def ReviewConn.zero : ReviewConn := ⟨GoSlice.nil⟩
def RepoRef.zero : RepoRef := ⟨""⟩
def PRNode.zero : PRNode :=
  ⟨RepoRef.zero, 0, "", "", "", "", 0, 0, 0, UserRef.zero, "", ReviewConn.zero⟩
def PRConn.zero : PRConn := ⟨GoSlice.nil⟩
def RepoData.zero : RepoData := ⟨"", PRConn.zero⟩
def UserData.zero : UserData := ⟨"", PRConn.zero⟩
def RepoQueryData.zero : RepoQueryData := ⟨RepoData.zero⟩
def UserQueryData.zero : UserQueryData := ⟨UserData.zero⟩
def RepoQuery.zero : RepoQuery := ⟨RepoQueryData.zero⟩
def UserQuery.zero : UserQuery := ⟨UserQueryData.zero⟩

/-! ## Struct decoders, one per struct type -/

def userRefField (key : String) (v : Json) (u : UserRef) : Except JsonError UserRef :=
  if matchesField "username" key then
    (decodeString v u.Username).map fun s => { u with Username := s }
  else .ok u

def decodeUserRef : Json → UserRef → Except JsonError UserRef :=
  decodeStruct userRefField

def reviewNodeField (key : String) (v : Json) (r : ReviewNode) : Except JsonError ReviewNode :=
  if matchesField "reviewer" key then
    (decodeUserRef v r.Reviewer).map fun u => { r with Reviewer := u }
  else if matchesField "publishedAt" key then
    (decodeString v r.PublishedAt).map fun s => { r with PublishedAt := s }
  else if matchesField "state" key then
    (decodeString v r.State).map fun s => { r with State := s }
  else .ok r

def decodeReviewNode : Json → ReviewNode → Except JsonError ReviewNode :=
  decodeStruct reviewNodeField

def reviewConnField (key : String) (v : Json) (c : ReviewConn) : Except JsonError ReviewConn :=
  if matchesField "nodes" key then
    (decodeSlice decodeReviewNode ReviewNode.zero v c.Nodes).map fun s => { c with Nodes := s }
  else .ok c

def decodeReviewConn : Json → ReviewConn → Except JsonError ReviewConn :=
  decodeStruct reviewConnField

def repoRefField (key : String) (v : Json) (r : RepoRef) : Except JsonError RepoRef :=
  if matchesField "name" key then
    (decodeString v r.Name).map fun s => { r with Name := s }
  else .ok r

def decodeRepoRef : Json → RepoRef → Except JsonError RepoRef :=
  decodeStruct repoRefField

def prNodeField (kind : QueryKind) (key : String) (v : Json) (n : PRNode) :
    Except JsonError PRNode :=
  if kind = .user ∧ matchesField "repository" key then
    (decodeRepoRef v n.Repository).map fun r => { n with Repository := r }
  else if matchesField "number" key then
    (decodeInt v n.Number).map fun i => { n with Number := i }
  else if matchesField "title" key then
    (decodeString v n.Title).map fun s => { n with Title := s }
  else if matchesField "permalink" key then
    (decodeString v n.Permalink).map fun s => { n with Permalink := s }
  else if matchesField "updatedAt" key then
    (decodeString v n.UpdatedAt).map fun s => { n with UpdatedAt := s }
  else if matchesField "state" key then
    (decodeString v n.State).map fun s => { n with State := s }
  else if matchesField "additions" key then
    (decodeInt v n.Additions).map fun i => { n with Additions := i }
  else if matchesField "deletions" key then
    (decodeInt v n.Deletions).map fun i => { n with Deletions := i }
  else if matchesField "changedFiles" key then
    (decodeInt v n.ChangedFiles).map fun i => { n with ChangedFiles := i }
  else if matchesField "PrAuthor" key then
    (decodeUserRef v n.PrAuthor).map fun u => { n with PrAuthor := u }
  else if matchesField "reviewDecision" key then
    (decodeString v n.ReviewDecision).map fun s => { n with ReviewDecision := s }
  else if matchesField "reviews" key then
    (decodeReviewConn v n.Reviews).map fun c => { n with Reviews := c }
  else .ok n

def decodePRNode (kind : QueryKind) : Json → PRNode → Except JsonError PRNode :=
  decodeStruct (prNodeField kind)

def prConnField (kind : QueryKind) (key : String) (v : Json) (c : PRConn) :
    Except JsonError PRConn :=
  if matchesField "nodes" key then
    (decodeSlice (decodePRNode kind) PRNode.zero v c.Nodes).map fun s => { c with Nodes := s }
  else .ok c

def decodePRConn (kind : QueryKind) : Json → PRConn → Except JsonError PRConn :=
  decodeStruct (prConnField kind)

def repoDataField (key : String) (v : Json) (r : RepoData) : Except JsonError RepoData :=
  if matchesField "name" key then
    (decodeString v r.Name).map fun s => { r with Name := s }
  else if matchesField "pullRequests" key then
    (decodePRConn .repo v r.PullRequests).map fun c => { r with PullRequests := c }
  else .ok r

def decodeRepoData : Json → RepoData → Except JsonError RepoData :=
  decodeStruct repoDataField

def userDataField (key : String) (v : Json) (u : UserData) : Except JsonError UserData :=
  if matchesField "login" key then
    (decodeString v u.Login).map fun s => { u with Login := s }
  else if matchesField "pullRequests" key then
    (decodePRConn .user v u.PullRequests).map fun c => { u with PullRequests := c }
  else .ok u

def decodeUserData : Json → UserData → Except JsonError UserData :=
  decodeStruct userDataField

def repoQueryDataField (key : String) (v : Json) (d : RepoQueryData) :
    Except JsonError RepoQueryData :=
  if matchesField "repo" key then
    (decodeRepoData v d.Repo).map fun r => { d with Repo := r }
  else .ok d

def decodeRepoQueryData : Json → RepoQueryData → Except JsonError RepoQueryData :=
  decodeStruct repoQueryDataField

def userQueryDataField (key : String) (v : Json) (d : UserQueryData) :
    Except JsonError UserQueryData :=
  if matchesField "user" key then
    (decodeUserData v d.User).map fun u => { d with User := u }
  else .ok d

def decodeUserQueryData : Json → UserQueryData → Except JsonError UserQueryData :=
  decodeStruct userQueryDataField

def repoQueryField (key : String) (v : Json) (q : RepoQuery) : Except JsonError RepoQuery :=
  if matchesField "data" key then
    (decodeRepoQueryData v q.Data).map fun d => { q with Data := d }
  else .ok q

def userQueryField (key : String) (v : Json) (q : UserQuery) : Except JsonError UserQuery :=
  if matchesField "data" key then
    (decodeUserQueryData v q.Data).map fun d => { q with Data := d }
  else .ok q

/-- `json.Unmarshal([]byte(data), repos)` of `getRepoPullRequests`, into a fresh struct. -/
def unmarshalRepoQuery : Body → Except JsonError RepoQuery
  | .malformed _ => .error .SyntaxError
  | .json doc => decodeStruct repoQueryField doc RepoQuery.zero

/-- `json.Unmarshal([]byte(data), repos)` of `getPullRequestsForUser`, into a fresh
struct. -/
def unmarshalUserQuery : Body → Except JsonError UserQuery
  | .malformed _ => .error .SyntaxError
  | .json doc => decodeStruct userQueryField doc UserQuery.zero

/-! ## The data model of `github/main.go` -/

/-- The struct `Review` (github/main.go). -/
structure Review where
  ReviewerUserName : String
  PublishedAt : String
  State : String
  deriving DecidableEq, Repr

/-- The struct `PullRequest`. -/
structure PullRequest where
  Repository : String
  Number : Int
  Title : String
  Permalink : String
  UpdatedAt : String
  State : String
  Additions : Int
  Deletions : Int
  ChangedFiles : Int
  AuthorUserName : String
  ReviewDecision : String
  Reviews : List Review
  deriving DecidableEq, Repr

/-- The struct `Repository`. -/
structure Repository where
  Name : String
  PullRequests : List PullRequest
  deriving DecidableEq, Repr

/-- The struct `TeamMember`. -/
structure TeamMember where
  GithubUserName : String
  EMail : String
  DisplayName : String
  PullRequests : List PullRequest
  deriving DecidableEq, Repr

/-- The struct `Organization`. -/
structure Organization where
  Name : String
  Repositories : List Repository
  TeamMembers : List TeamMember
  deriving DecidableEq, Repr

/-- The struct `PullRequestSummaryEntry`. -/
structure PullRequestSummaryEntry where
  Title : String
  Permalink : String
  Author : String
  UpdatedAt : String
  Approvals : Int
  LastApprovalAt : String
  Rejections : Int
  LastRejectionAt : String
  Reviews : Int
  LastReviewAt : String
  deriving DecidableEq, Repr

/-- The struct `RepoSummaryEntry`. -/
structure RepoSummaryEntry where
  Repository : String
  TotalOpenPRs : Int
  OpenPRs : List PullRequestSummaryEntry
  deriving DecidableEq, Repr

/-! ## The outside world of `PostTo` -/

/-- The marshalled `PullRequestGraphQLPayload`: which of the two constant query
documents it carries, and its variables. -/
inductive Payload where
  | repoPullRequests (owner name : String)
  | userPullRequests (userName : String)
  deriving DecidableEq, Repr

/-- One POST issued by `PostTo`. -/
structure Request where
  url : String
  payload : Payload
  githubToken : String
  deriving DecidableEq, Repr

/-- The API as the program meets it: what comes back for the request that is the
`n`-th one of the invocation, `none` when the round trip fails (`client.Do` or
`io.ReadAll` returns an error). -/
structure Net where
  respond : Nat → Request → Option Body

/-- The requests issued so far, oldest first. -/
structure World where
  sent : List Request
  deriving DecidableEq, Repr

/-- The result of a function that may end the process with `log.Fatal`: either the
process has exited (in the world `w`), or the function has returned `a`. -/
inductive Outcome (α : Type) where
  | fatal (w : World)
  | ret (a : α) (w : World)
  deriving DecidableEq, Repr

/-- The function `PostTo`: one request is issued; a failing round trip ends the
process, otherwise the body of the answer is returned, whatever its status code. -/
def PostTo (net : Net) (url : String) (payload : Payload) (githubToken : String)
    (w : World) : Outcome Body :=
  let req : Request := ⟨url, payload, githubToken⟩
  match net.respond w.sent.length req with
  | none => .fatal ⟨w.sent ++ [req]⟩
  | some respBody => .ret respBody ⟨w.sent ++ [req]⟩

/-! ## The two mappers -/

/-- The inner loop of both mappers: `reviews` grows by one `Review` per review node. -/
def mapReviews (nodes : List ReviewNode) : List Review :=
  nodes.foldl
    (fun reviews review =>
      reviews ++ [{ ReviewerUserName := review.Reviewer.Username,
                    PublishedAt := review.PublishedAt,
                    State := review.State }])
    []

/-- The outer loop of `getRepoPullRequests`. -/
def mapRepoPullRequests (repos : RepoQuery) : List PullRequest :=
  repos.Data.Repo.PullRequests.Nodes.elems.foldl
    (fun pullRequests pr =>
      pullRequests ++ [{ Repository := repos.Data.Repo.Name,
                         Number := pr.Number,
                         Title := pr.Title,
                         Permalink := pr.Permalink,
                         UpdatedAt := pr.UpdatedAt,
                         State := pr.State,
                         Additions := pr.Additions,
                         Deletions := pr.Deletions,
                         ChangedFiles := pr.ChangedFiles,
                         AuthorUserName := pr.PrAuthor.Username,
                         ReviewDecision := pr.ReviewDecision,
                         Reviews := mapReviews pr.Reviews.Nodes.elems }])
    []

/-- The outer loop of `getPullRequestsForUser`. -/
def mapUserPullRequests (repos : UserQuery) : List PullRequest :=
  repos.Data.User.PullRequests.Nodes.elems.foldl
    (fun pullRequests pr =>
      pullRequests ++ [{ Repository := pr.Repository.Name,
                         Number := pr.Number,
                         Title := pr.Title,
                         Permalink := pr.Permalink,
                         UpdatedAt := pr.UpdatedAt,
                         State := pr.State,
                         Additions := pr.Additions,
                         Deletions := pr.Deletions,
                         ChangedFiles := pr.ChangedFiles,
                         AuthorUserName := pr.PrAuthor.Username,
                         ReviewDecision := pr.ReviewDecision,
                         Reviews := mapReviews pr.Reviews.Nodes.elems }])
    []

/-- The endpoint both mappers post to. -/
def graphqlURL : String := "https://api.github.com/graphql"

/-- The function `getRepoPullRequests`: the query is posted, the answer decoded and
mapped. The result is the pair `(pullRequests, nil)` as `.ok pullRequests` and the
pair `(nil, derr)` as `.error derr`. (`json.Marshal` of a payload of three strings
does not fail.) -/
def getRepoPullRequests (net : Net) (ownerName repoName githubToken : String) (w : World) :
    Outcome (Except JsonError (List PullRequest)) :=
  match PostTo net graphqlURL (.repoPullRequests ownerName repoName) githubToken w with
  | .fatal w1 => .fatal w1
  | .ret data w1 =>
    match unmarshalRepoQuery data with
    | .error derr => .ret (.error derr) w1
    | .ok repos => .ret (.ok (mapRepoPullRequests repos)) w1

/-- The function `getPullRequestsForUser`. -/
def getPullRequestsForUser (net : Net) (userName githubToken : String) (w : World) :
    Outcome (Except JsonError (List PullRequest)) :=
  match PostTo net graphqlURL (.userPullRequests userName) githubToken w with
  | .fatal w1 => .fatal w1
  | .ret data w1 =>
    match unmarshalUserQuery data with
    | .error derr => .ret (.error derr) w1
    | .ok repos => .ret (.ok (mapUserPullRequests repos)) w1

/-! ## The orchestrator -/

/-- The assignment `org.Repositories[index].PullRequests = pullRequests`. -/
def setRepoPullRequests : List Repository → Nat → List PullRequest → List Repository
  | [], _, _ => []
  | r :: rs, 0, prs => { r with PullRequests := prs } :: rs
  | r :: rs, index + 1, prs => r :: setRepoPullRequests rs index prs

/-- The assignment `org.TeamMembers[index].PullRequests = pullRequests`. -/
def setMemberPullRequests : List TeamMember → Nat → List PullRequest → List TeamMember
  | [], _, _ => []
  | m :: ms, 0, prs => { m with PullRequests := prs } :: ms
  | m :: ms, index + 1, prs => m :: setMemberPullRequests ms index prs

/-- How an invocation of `LoadOpenPullRequests` ends: the process has exited in
`log.Fatal`, with the organization as it was in memory then, or the method has
returned the error value `err` (`none` is `nil`). -/
inductive LoadOutcome where
  | fatal (org : Organization) (w : World)
  | ret (err : Option JsonError) (org : Organization) (w : World)
  deriving DecidableEq, Repr

/-- The second loop of `LoadOpenPullRequests`, over the team members still to be
visited, followed by `return nil`. -/
def memberLoop (net : Net) (token : String) :
    List TeamMember → Nat → Organization → World → LoadOutcome
  | [], _, org, w => .ret none org w
  | teamMember :: rest, index, org, w =>
    match getPullRequestsForUser net teamMember.GithubUserName token w with
    | .fatal w1 => .fatal org w1
    | .ret (.error _) w1 => .fatal org w1
    | .ret (.ok pullRequests) w1 =>
      memberLoop net token rest (index + 1)
        { org with TeamMembers := setMemberPullRequests org.TeamMembers index pullRequests } w1

/-- The first loop of `LoadOpenPullRequests`, over the repositories still to be
visited, followed by the rest of the method. -/
def repoLoop (net : Net) (token : String) :
    List Repository → Nat → Organization → World → LoadOutcome
  | [], _, org, w => memberLoop net token org.TeamMembers 0 org w
  | repository :: rest, index, org, w =>
    match getRepoPullRequests net org.Name repository.Name token w with
    | .fatal w1 => .fatal org w1
    | .ret (.error _) w1 => .fatal org w1
    | .ret (.ok pullRequests) w1 =>
      repoLoop net token rest (index + 1)
        { org with Repositories := setRepoPullRequests org.Repositories index pullRequests } w1

/-- The method `LoadOpenPullRequests`. -/
def LoadOpenPullRequests (net : Net) (org : Organization) (token : String) (w : World) :
    LoadOutcome :=
  repoLoop net token org.Repositories 0 org w

/-! ## The token lookup of `github_pr_notify_http.go` -/

/-- The operating system as `loadValueFromDotEnvFile` meets it: `output cmd` is what
`exec.Command("sh", "-c", cmd).Output()` gives, the standard output of the shell
command or `none` when it returns an error; `getenv` is `os.Getenv`. -/
structure OS where
  output : String → Option String
  getenv : String → String

/-- The result of a function that may end the process with `log.Fatal`, when no
request is involved. -/
inductive Exit (α : Type) where
  | fatal
  | ret (a : α)
  deriving DecidableEq, Repr

/-- The shell command that looks the key up in `.env`. -/
def dotEnvCommand (key : String) : String :=
  "cat .env | grep " ++ key ++ " | cut -d '=' -f 2"

/-- The function `loadValueFromDotEnvFile`. `len(stdout) > 0` is on bytes; a string
has a byte exactly when it has a character. -/
def loadValueFromDotEnvFile (os : OS) (key : String) : Exit String :=
  match os.output (dotEnvCommand key) with
  | none => .fatal
  | some stdout =>
    if stdout.length > 0 then .ret stdout
    else if os.getenv key ≠ "" then .ret (os.getenv key)
    else .ret ""

/-! ## The shell pipeline of the token lookup -/

/-- The pieces of a text between the occurrences of the separator `c`. -/
def splitOnChar (c : Char) : List Char → List (List Char)
  | [] => [[]]
  | x :: xs =>
    if x = c then [] :: splitOnChar c xs
    else
      match splitOnChar c xs with
      | [] => [[x]]
      | piece :: pieces => (x :: piece) :: pieces

/-- The lines of a text as `grep` and `cut` read them: the pieces between newlines,
the piece after the last newline counting only when it is not empty. -/
def textLines (text : List Char) : List (List Char) :=
  (splitOnChar '\n' text).reverse.tail.reverse ++
    match (splitOnChar '\n' text).reverse.head? with
    | some [] => []
    | some last => [last]
    | none => []

/-- Whether `line` starts with `pattern`. -/
def startsWith : List Char → List Char → Bool
  | [], _ => true
  | _ :: _, [] => false
  | p :: ps, c :: cs => decide (p = c) && startsWith ps cs

/-- Whether `pattern` occurs in `line`. -/
def occursIn (pattern : List Char) : List Char → Bool
  | [] => startsWith pattern []
  | c :: cs => startsWith pattern (c :: cs) || occursIn pattern cs

/-- The command `grep PATTERN` for a pattern without special characters: the lines of
the input in which the pattern occurs. -/
def grep (pattern : List Char) (input : List Char) : List (List Char) :=
  (textLines input).filter (occursIn pattern)

/-- The command `cut -d '=' -f 2` on one line: a line without `=` is printed whole, of
any other line the second field. -/
def cutSecondField (line : List Char) : List Char :=
  match splitOnChar '=' line with
  | _ :: second :: _ => second
  | _ => line

/-- What a command prints for the lines it outputs: each line, ended by a newline. -/
def printLines (lines : List (List Char)) : List Char :=
  (lines.map fun line => line ++ ['\n']).flatten

/-- Whether a word is made of letters, digits and underscores only, so that it means
itself to the shell and to `grep`. -/
def plainWord (word : List Char) : Bool :=
  !word.isEmpty && word.all fun c => c.isAlphanum || c = '_'

/-- The shell, as far as the program uses it: the standard output of `sh -c cmd` for a
command of the form `cat .env | grep KEY | cut -d '=' -f 2` with a plain key, given the
contents of the file `.env` of the working directory (`none`: there is no such file,
`cat` prints nothing on its standard output). The exit status of a pipeline is that of
its last command, `cut`, which succeeds; so `Output` returns no error. For any other
command the model has no answer (`none`). -/
def shell (dotEnv : Option String) (cmd : String) : Option String :=
  match ((splitOnChar ' ' cmd.toList).filter fun word => !word.isEmpty).map String.mk with
  | ["cat", ".env", "|", "grep", key, "|", "cut", "-d", "'='", "-f", "2"] =>
    if plainWord key.toList then
      some (String.mk (printLines ((grep key.toList (dotEnv.getD "").toList).map cutSecondField)))
    else none
  | _ => none

/-- The operating system of a process with the given `.env` file and environment. -/
def dotEnvOS (dotEnv : Option String) (getenv : String → String) : OS :=
  ⟨shell dotEnv, getenv⟩

/-! ## The aggregator -/

/-- Modelled from the spec: the lexical order on strings by which the aggregator
compares timestamps (§4.2); the aggregator is missing from the source. -/
def lexLt : List Char → List Char → Bool
  | _, [] => false
  | [], _ :: _ => true
  | a :: as, b :: bs => decide (a.toNat < b.toNat) || (decide (a.toNat = b.toNat) && lexLt as bs)

/-- Modelled from the spec: the later of two timestamps of the aggregator (§4.2), which
compares the ISO-8601 strings lexically. No function of the source computes a summary;
only the types `RepoSummaryEntry` and `PullRequestSummaryEntry` are declared. -/
def laterOf (a b : String) : String :=
  if lexLt a.toList b.toList then b else a

/-- Modelled from the spec: one step of the aggregator's scan of a review list (§4.2),
missing from the source. Every review counts as a review; a review in state
`APPROVED` also counts as an approval, one in state `CHANGES_REQUESTED` as a
rejection; each category keeps its latest `PublishedAt`. -/
def scanReview (e : PullRequestSummaryEntry) (r : Review) : PullRequestSummaryEntry :=
  let e1 := { e with Reviews := e.Reviews + 1,
                     LastReviewAt := laterOf e.LastReviewAt r.PublishedAt }
  if r.State = "APPROVED" then
    { e1 with Approvals := e1.Approvals + 1,
              LastApprovalAt := laterOf e1.LastApprovalAt r.PublishedAt }
  else if r.State = "CHANGES_REQUESTED" then
    { e1 with Rejections := e1.Rejections + 1,
              LastRejectionAt := laterOf e1.LastRejectionAt r.PublishedAt }
  else e1

/-- Modelled from the spec: the summary of one pull request (§4.2), missing from the
source: its reviews are scanned once, from zero counts and empty timestamps. -/
def summarizePullRequest (pr : PullRequest) : PullRequestSummaryEntry :=
  pr.Reviews.foldl scanReview
    { Title := pr.Title, Permalink := pr.Permalink, Author := pr.AuthorUserName,
      UpdatedAt := pr.UpdatedAt, Approvals := 0, LastApprovalAt := "",
      Rejections := 0, LastRejectionAt := "", Reviews := 0, LastReviewAt := "" }

/-- Modelled from the spec: the aggregator (§4.2), missing from the source: one
`RepoSummaryEntry` for a repository name and its pull requests, with one summary
per pull request, appended in input order. -/
def summarizeRepository (repository : String) (pullRequests : List PullRequest) :
    RepoSummaryEntry :=
  { Repository := repository,
    TotalOpenPRs := pullRequests.length,
    OpenPRs := pullRequests.foldl (fun entries pr => entries ++ [summarizePullRequest pr]) [] }

/-! ## Vocabulary of the properties -/

instance instDecidableEqExcept {ε α : Type} [DecidableEq ε] [DecidableEq α] :
    DecidableEq (Except ε α)
  | .ok a, .ok b => if h : a = b then isTrue (by rw [h]) else isFalse (by intro h1; cases h1; exact h rfl)
  | .error a, .error b =>
    if h : a = b then isTrue (by rw [h]) else isFalse (by intro h1; cases h1; exact h rfl)
  | .ok _, .error _ => isFalse (by intro h; cases h)
  | .error _, .ok _ => isFalse (by intro h; cases h)

/-- Whether a JSON value is `null`. -/
def isNull : Json → Bool
  | .null => true
  | _ => false

/-- Whether a JSON document lacks the `data` container or the container `inner` in
it: it is an object, and each of its `data` members is `null` or an object whose
`inner` members are `null` (no member at all is the plain case). -/
def lacksContainer (inner : String) : Json → Bool
  | .obj members =>
    members.all fun kv =>
      !matchesField "data" kv.1 ||
        match kv.2 with
        | .null => true
        | .obj ms => ms.all fun kv2 => !matchesField inner kv2.1 || isNull kv2.2
        | _ => false
  | _ => false

/-- Whether the value of a `reviews` member holds no review: it is `null`, or an object
whose `nodes` members are `null` or the empty array. -/
def noReviews : Json → Bool
  | .null => true
  | .obj members =>
    members.all fun kv =>
      !matchesField "nodes" kv.1 ||
        match kv.2 with
        | .null => true
        | .arr [] => true
        | _ => false
  | _ => false

/-- Whether a member of a node object leaves the node without author, review decision
and reviews: it is none of the three members, or it is the author or the review
decision and `null`, or the reviews and without a review. -/
def bareMember (key : String) (v : Json) : Bool :=
  (!matchesField "PrAuthor" key || isNull v) &&
  (!matchesField "reviewDecision" key || isNull v) &&
  (!matchesField "reviews" key || noReviews v)

/-- Whether a node object has neither author, nor review decision, nor reviews: each of
the three members is absent, or present without a value. -/
def bareNode (members : List (String × Json)) : Bool :=
  members.all fun kv => bareMember kv.1 kv.2

/-- The `PullRequest` that a mapper builds from a node, `name` being the repository
name it gives the record. -/
def repoRecord (name : String) (pr : PRNode) : PullRequest :=
  { Repository := name, Number := pr.Number, Title := pr.Title, Permalink := pr.Permalink,
    UpdatedAt := pr.UpdatedAt, State := pr.State, Additions := pr.Additions,
    Deletions := pr.Deletions, ChangedFiles := pr.ChangedFiles,
    AuthorUserName := pr.PrAuthor.Username, ReviewDecision := pr.ReviewDecision,
    Reviews := pr.Reviews.Nodes.elems.map fun review =>
      { ReviewerUserName := review.Reviewer.Username, PublishedAt := review.PublishedAt,
        State := review.State } }

/-- The request of the repository query. -/
def repoRequest (ownerName repoName githubToken : String) : Request :=
  ⟨graphqlURL, .repoPullRequests ownerName repoName, githubToken⟩

/-- The request of the user query. -/
def userRequest (userName githubToken : String) : Request :=
  ⟨graphqlURL, .userPullRequests userName, githubToken⟩

/-- The document `{"data":{"repo":{"name":name,"pullRequests":{"nodes":nodes}}}}`, the
shape of an answer to the repository query. -/
def repoResponse (name : String) (nodes : List Json) : Json :=
  .obj [("data", .obj [("repo", .obj [("name", .str name),
    ("pullRequests", .obj [("nodes", .arr nodes)])])])]

/-- The document `{"data":{"user":{"login":login,"pullRequests":{"nodes":nodes}}}}`, the
shape of an answer to the user query. -/
def userResponse (login : String) (nodes : List Json) : Json :=
  .obj [("data", .obj [("user", .obj [("login", .str login),
    ("pullRequests", .obj [("nodes", .arr nodes)])])])]

/-- A repository with its pull requests filled in. -/
def populateRepo (r : Repository) (prs : List PullRequest) : Repository :=
  { r with PullRequests := prs }

/-- A team member with their pull requests filled in. -/
def populateMember (m : TeamMember) (prs : List PullRequest) : TeamMember :=
  { m with PullRequests := prs }

/-- One repository query per configured repository, in order. -/
def repoRequests (org : Organization) (token : String) : List Request :=
  org.Repositories.map fun r => repoRequest org.Name r.Name token

/-- One user query per configured team member, in order. -/
def memberRequests (org : Organization) (token : String) : List Request :=
  org.TeamMembers.map fun m => userRequest m.GithubUserName token

/-- The queries of an invocation on which nothing fails: the repositories first, then
the team members. -/
def requestsFor (org : Organization) (token : String) : List Request :=
  repoRequests org token ++ memberRequests org token

/-- Whether a fetch failed: the round trip failed (the process is gone) or the mapper
returned an error. -/
def fetchFailed : Outcome (Except JsonError (List PullRequest)) → Bool
  | .fatal _ => true
  | .ret (.error _) _ => true
  | .ret (.ok _) _ => false

/-! ## Well-typed answers -/

/-- Whether `json.Unmarshal` can store the value into a `string` field. -/
def fitsString : Json → Bool
  | .null => true
  | .str _ => true
  | _ => false

/-- Whether `json.Unmarshal` can store the value into an `int` field. -/
def fitsInt : Json → Bool
  | .null => true
  | .int n => intFits n
  | _ => false

/-- Whether a value fits a struct: it is `null`, or an object each of whose members
fits (`member` decides for a member name and its value). -/
def fitsStruct (member : String → Json → Bool) : Json → Bool
  | .null => true
  | .obj members => members.all fun kv => member kv.1 kv.2
  | _ => false

/-- Whether a value fits a slice: it is `null`, or an array each of whose items
fits. -/
def fitsSlice (elem : Json → Bool) : Json → Bool
  | .null => true
  | .arr items => items.all elem
  | _ => false

/-- Whether the member fits the struct of `PrAuthor` and of `Reviewer`. -/
def fitsUserRefMember (key : String) (v : Json) : Bool :=
  if matchesField "username" key then fitsString v else true

/-- Whether the member fits an element of `Reviews.Nodes`. -/
def fitsReviewNodeMember (key : String) (v : Json) : Bool :=
  if matchesField "reviewer" key then fitsStruct fitsUserRefMember v
  else if matchesField "publishedAt" key then fitsString v
  else if matchesField "state" key then fitsString v
  else true

/-- Whether the member fits the struct `Reviews` of a node. -/
def fitsReviewConnMember (key : String) (v : Json) : Bool :=
  if matchesField "nodes" key then fitsSlice (fitsStruct fitsReviewNodeMember) v else true

/-- Whether the member fits the struct `Repository` of a node of the user query. -/
def fitsRepoRefMember (key : String) (v : Json) : Bool :=
  if matchesField "name" key then fitsString v else true

/-- Whether the member fits a pull-request node: a member that is stored into a field
has a value of the JSON type of the field; any other member fits. -/
def fitsPRNodeMember (kind : QueryKind) (key : String) (v : Json) : Bool :=
  if kind = .user ∧ matchesField "repository" key then fitsStruct fitsRepoRefMember v
  else if matchesField "number" key then fitsInt v
  else if matchesField "title" key then fitsString v
  else if matchesField "permalink" key then fitsString v
  else if matchesField "updatedAt" key then fitsString v
  else if matchesField "state" key then fitsString v
  else if matchesField "additions" key then fitsInt v
  else if matchesField "deletions" key then fitsInt v
  else if matchesField "changedFiles" key then fitsInt v
  else if matchesField "PrAuthor" key then fitsStruct fitsUserRefMember v
  else if matchesField "reviewDecision" key then fitsString v
  else if matchesField "reviews" key then fitsStruct fitsReviewConnMember v
  else true

/-- Whether the member fits a pull-request node as far as the repository and the eight
scalar fields go: nothing is asked of a member of any other name. -/
def fitsScalarMember (kind : QueryKind) (key : String) (v : Json) : Bool :=
  if kind = .user ∧ matchesField "repository" key then fitsStruct fitsRepoRefMember v
  else if matchesField "number" key then fitsInt v
  else if matchesField "title" key then fitsString v
  else if matchesField "permalink" key then fitsString v
  else if matchesField "updatedAt" key then fitsString v
  else if matchesField "state" key then fitsString v
  else if matchesField "additions" key then fitsInt v
  else if matchesField "deletions" key then fitsInt v
  else if matchesField "changedFiles" key then fitsInt v
  else true

/-- Whether the member fits the struct `PullRequests`. -/
def fitsPRConnMember (kind : QueryKind) (key : String) (v : Json) : Bool :=
  if matchesField "nodes" key then fitsSlice (fitsStruct (fitsPRNodeMember kind)) v else true

/-- Whether the member fits the struct `Data.Repo`. -/
def fitsRepoDataMember (key : String) (v : Json) : Bool :=
  if matchesField "name" key then fitsString v
  else if matchesField "pullRequests" key then fitsStruct (fitsPRConnMember .repo) v
  else true

/-- Whether the member fits the struct `Data.User`. -/
def fitsUserDataMember (key : String) (v : Json) : Bool :=
  if matchesField "login" key then fitsString v
  else if matchesField "pullRequests" key then fitsStruct (fitsPRConnMember .user) v
  else true

/-- Whether the member fits the struct `Data` of the repository query. -/
def fitsRepoQueryDataMember (key : String) (v : Json) : Bool :=
  if matchesField "repo" key then fitsStruct fitsRepoDataMember v else true

/-- Whether the member fits the struct `Data` of the user query. -/
def fitsUserQueryDataMember (key : String) (v : Json) : Bool :=
  if matchesField "user" key then fitsStruct fitsUserDataMember v else true

/-- Whether an answer to the repository query is well typed: every member that
`json.Unmarshal` stores into a field of `PullRequestsQuery`, at any depth, has a value
of the JSON type of that field (a string or a fitting integer literal for a scalar, an
object for a struct, an array for a slice) or is `null`. Absent members and members that
belong to no field are of no concern. -/
def fitsRepoQuery : Json → Bool :=
  fitsStruct fun key v =>
    if matchesField "data" key then fitsStruct fitsRepoQueryDataMember v else true

/-- Whether an answer to the user query is well typed, as `fitsRepoQuery`. -/
def fitsUserQuery : Json → Bool :=
  fitsStruct fun key v =>
    if matchesField "data" key then fitsStruct fitsUserQueryDataMember v else true

/-- The value of the one member of an object that is stored into the field tagged
`field`; `none` when there is no such member or more than one. -/
def onlyMember (field : String) (members : List (String × Json)) : Option Json :=
  match members.filter fun kv => matchesField field kv.1 with
  | [kv] => some kv.2
  | _ => none

/-- The pull-request nodes of an answer: the array at `data`, then `container` (`repo` or
`user`), then `pullRequests`, then `nodes`, each of the four members occurring once. -/
def responseNodes (container : String) : Json → Option (List Json)
  | .obj top =>
    match onlyMember "data" top with
    | some (.obj data) =>
      match onlyMember container data with
      | some (.obj inner) =>
        match onlyMember "pullRequests" inner with
        | some (.obj connection) =>
          match onlyMember "nodes" connection with
          | some (.arr nodes) => some nodes
          | _ => none
        | _ => none
      | _ => none
    | _ => none
  | _ => none

/-- The value that a scalar field takes from the members of an object: that of the last
member stored into the field that is not `null`; `null` when there is none. -/
def lastValue (field : String) : List (String × Json) → Json
  | [] => .null
  | kv :: rest =>
    if isNull (lastValue field rest) then
      if matchesField field kv.1 then kv.2 else .null
    else lastValue field rest

/-- The integer of an integer literal, `0` for any other value. -/
def intOf : Json → Int
  | .int n => n
  | _ => 0

/-- The text of a string, empty for any other value. -/
def strOf : Json → String
  | .str s => s
  | _ => ""

/-- A field dispatcher `field` treats the field tagged `f` as follows: a member with that
name is decoded by `dec` into the part `proj` of the struct, and any other member leaves
that part as it is. -/
def FieldFrame {α β : Type} (field : String → Json → α → Except JsonError α) (f : String)
    (proj : α → β) (dec : Json → β → Except JsonError β) : Prop :=
  ∀ k v cur r, field k v cur = .ok r →
    (matchesField f k = true → dec v (proj cur) = .ok (proj r)) ∧
    (matchesField f k = false → proj r = proj cur)

/-! ## Concrete inputs -/

/-- The body `{"message":"Bad credentials","documentation_url":"https://docs.github.com/graphql"}`. -/
def badCredentialsDoc : Json :=
  .obj [("message", .str "Bad credentials"),
        ("documentation_url", .str "https://docs.github.com/graphql")]

/-- The body `{"data":{"repo":null},"errors":[{"type":"NOT_FOUND"}]}`, the answer for a
repository that does not exist. -/
def notFoundDoc : Json :=
  .obj [("data", .obj [("repo", .null)]),
        ("errors", .arr [.obj [("type", .str "NOT_FOUND")]])]

/-- The body `{"data":{}}`. -/
def emptyDataDoc : Json :=
  .obj [("data", .obj [])]

/-- An API that answers every request with the same body. -/
def constNet (body : Body) : Net :=
  ⟨fun _ _ => some body⟩

/-- A pull-request node as the API sends it: pull request 7 of `alice`, commented on by
`bob` and then approved by `carol`. -/
def fullNode : Json :=
  .obj [("number", .int 7), ("title", .str "Fix login"),
        ("permalink", .str "https://github.com/acme/svc/pull/7"),
        ("updatedAt", .str "2024-05-02T09:00:00Z"), ("state", .str "OPEN"),
        ("additions", .int 10), ("deletions", .int 2), ("changedFiles", .int 3),
        ("PrAuthor", .obj [("username", .str "alice")]),
        ("reviewDecision", .str "APPROVED"),
        ("reviews", .obj [("nodes", .arr [
          .obj [("reviewer", .obj [("username", .str "bob")]),
                ("publishedAt", .str "2024-05-01T11:00:00Z"), ("state", .str "COMMENTED")],
          .obj [("reviewer", .obj [("username", .str "carol")]),
                ("publishedAt", .str "2024-05-02T09:00:00Z"), ("state", .str "APPROVED")]])])]

/-- The node `fullNode`, followed by the name of its repository, as the user query
asks for it. -/
def fullUserNode (repository : String) : Json :=
  match fullNode with
  | .obj members => .obj (("repository", .obj [("name", .str repository)]) :: members)
  | other => other

/-- The node struct that `fullNode` decodes to. -/
def fullDecoded (repository : String) : PRNode :=
  { Repository := ⟨repository⟩, Number := 7, Title := "Fix login",
    Permalink := "https://github.com/acme/svc/pull/7", UpdatedAt := "2024-05-02T09:00:00Z",
    State := "OPEN", Additions := 10, Deletions := 2, ChangedFiles := 3,
    PrAuthor := ⟨"alice"⟩, ReviewDecision := "APPROVED",
    Reviews := ⟨⟨[⟨⟨"bob"⟩, "2024-05-01T11:00:00Z", "COMMENTED"⟩,
                  ⟨⟨"carol"⟩, "2024-05-02T09:00:00Z", "APPROVED"⟩], []⟩⟩ }

/-- The record that both mappers build from `fullNode`. -/
def fullRecord (repository : String) : PullRequest :=
  { Repository := repository, Number := 7, Title := "Fix login",
    Permalink := "https://github.com/acme/svc/pull/7", UpdatedAt := "2024-05-02T09:00:00Z",
    State := "OPEN", Additions := 10, Deletions := 2, ChangedFiles := 3,
    AuthorUserName := "alice", ReviewDecision := "APPROVED",
    Reviews := [⟨"bob", "2024-05-01T11:00:00Z", "COMMENTED"⟩,
                ⟨"carol", "2024-05-02T09:00:00Z", "APPROVED"⟩] }

/-- An answer to the repository query in which the API lists pull request 7 twice. -/
def twiceDoc : Json :=
  repoResponse "svc" [fullNode, fullNode]

/-- The struct that `twiceDoc` decodes to. -/
def twiceDecoded : RepoQuery :=
  ⟨⟨⟨"svc", ⟨⟨[fullDecoded "", fullDecoded ""], []⟩⟩⟩⟩⟩

/-- An answer to the user query with pull request 7 of two repositories. -/
def twoReposDoc : Json :=
  userResponse "alice" [fullUserNode "svc", fullUserNode "web"]

/-- The struct that `twoReposDoc` decodes to. -/
def twoReposDecoded : UserQuery :=
  ⟨⟨⟨"alice", ⟨⟨[fullDecoded "svc", fullDecoded "web"], []⟩⟩⟩⟩⟩

/-- An answer to the query for repository `svc` in which the API spells the name `SVC`. -/
def renamedDoc : Json :=
  repoResponse "SVC" [fullNode]

/-- A node with neither author, nor review decision, nor reviews. -/
def bareMembers : List (String × Json) :=
  [("number", .int 12), ("title", .str "Bump deps"),
   ("permalink", .str "https://github.com/acme/svc/pull/12"),
   ("updatedAt", .str "2024-06-01T08:00:00Z"), ("state", .str "OPEN"),
   ("additions", .int 1), ("deletions", .int 1), ("changedFiles", .int 1)]

/-- The same node as the API sends it for a deleted author: the three members are
present, as `null` and as an empty list of reviews. -/
def ghostMembers : List (String × Json) :=
  bareMembers ++ [("PrAuthor", .null), ("reviewDecision", .null),
    ("reviews", .obj [("nodes", .arr [])])]

/-- An answer to the repository query with three nodes, the full node of pull request 7,
the node of pull request 12 as it comes for a deleted author, and the same without the
three members; the answer carries an `extensions` member besides `data`. -/
def mixedDoc : Json :=
  .obj [("data", .obj [("repo", .obj [("name", .str "svc"),
          ("pullRequests", .obj [("nodes",
            .arr [fullNode, .obj ghostMembers, .obj bareMembers])])])]),
        ("extensions", .obj [])]

/-- An organization with two repositories and one team member, nothing fetched yet. -/
def acme : Organization :=
  { Name := "acme",
    Repositories := [⟨"svc", []⟩, ⟨"web", []⟩],
    TeamMembers := [⟨"alice", "alice@acme.example", "Alice", []⟩] }

/-- An API that answers the query for a repository with pull request 7 of that
repository, and the query for a user with pull request 7 of `svc`. -/
def healthyNet : Net :=
  ⟨fun _ req =>
    match req.payload with
    | .repoPullRequests _ name => some (.json (repoResponse name [fullNode]))
    | .userPullRequests login => some (.json (userResponse login [fullUserNode "svc"]))⟩

/-- The organization `acme` after a run against `healthyNet`. -/
def acmeLoaded : Organization :=
  { Name := "acme",
    Repositories := [⟨"svc", [fullRecord "svc"]⟩, ⟨"web", [fullRecord "web"]⟩],
    TeamMembers := [⟨"alice", "alice@acme.example", "Alice", [fullRecord "svc"]⟩] }

/-- The API `healthyNet` with the round trip for repository `web` failing. -/
def webDownNet : Net :=
  ⟨fun n req =>
    match req.payload with
    | .repoPullRequests _ "web" => none
    | _ => healthyNet.respond n req⟩

/-- The API `healthyNet` with a body that is not JSON for the user query. -/
def garbledUserNet : Net :=
  ⟨fun n req =>
    match req.payload with
    | .userPullRequests _ => some (.malformed "<html>502 Bad Gateway</html>")
    | _ => healthyNet.respond n req⟩

/-- An operating system whose `.env` lookup prints `out` for every key, with the
environment variable `GITHUB_TOKEN` set to `env`. -/
def sampleOS (out env : String) : OS :=
  ⟨fun _ => some out, fun key => if key = "GITHUB_TOKEN" then env else ""⟩

/-- The pull requests of the scenario of §8: number 1 with two approvals, number 2 with
one rejection. -/
def scenarioPRs : List PullRequest :=
  [{ fullRecord "svc" with
      Number := 1,
      Reviews := [⟨"bob", "2024-05-01T11:00:00Z", "APPROVED"⟩,
                  ⟨"carol", "2024-05-02T09:00:00Z", "APPROVED"⟩] },
   { fullRecord "svc" with
      Number := 2,
      Reviews := [⟨"dave", "2024-05-03T12:00:00Z", "CHANGES_REQUESTED"⟩] }]

/-! # Properties -/

/-! ## Lemmas on the mapping loops -/

theorem foldl_append_singleton {α β : Type} (f : α → β) (l : List α) (init : List β) :
    l.foldl (fun acc x => acc ++ [f x]) init = init ++ l.map f := by
  induction l generalizing init with
  | nil => simp
  | cons x xs ih => simp [ih]

theorem mapReviews_eq_map (nodes : List ReviewNode) :
    mapReviews nodes = nodes.map fun review =>
      { ReviewerUserName := review.Reviewer.Username, PublishedAt := review.PublishedAt,
        State := review.State } := by
  unfold mapReviews
  rw [foldl_append_singleton]
  simp

theorem mapRepoPullRequests_eq_map (repos : RepoQuery) :
    mapRepoPullRequests repos =
      repos.Data.Repo.PullRequests.Nodes.elems.map (repoRecord repos.Data.Repo.Name) := by
  unfold mapRepoPullRequests
  rw [foldl_append_singleton]
  simp [repoRecord, mapReviews_eq_map]

theorem mapUserPullRequests_eq_map (repos : UserQuery) :
    mapUserPullRequests repos =
      repos.Data.User.PullRequests.Nodes.elems.map fun pr => repoRecord pr.Repository.Name pr := by
  unfold mapUserPullRequests
  rw [foldl_append_singleton]
  simp [repoRecord, mapReviews_eq_map]

theorem getRepoPullRequests_of_decoded (net : Net) (ownerName repoName githubToken : String)
    (w : World) (body : Body) (repos : RepoQuery)
    (hresp : net.respond w.sent.length (repoRequest ownerName repoName githubToken) = some body)
    (hdec : unmarshalRepoQuery body = .ok repos) :
    getRepoPullRequests net ownerName repoName githubToken w =
      .ret (.ok (repos.Data.Repo.PullRequests.Nodes.elems.map (repoRecord repos.Data.Repo.Name)))
        ⟨w.sent ++ [repoRequest ownerName repoName githubToken]⟩ := by
  unfold repoRequest at hresp
  simp [getRepoPullRequests, PostTo, hresp, hdec, mapRepoPullRequests_eq_map, repoRequest]

theorem getPullRequestsForUser_of_decoded (net : Net) (userName githubToken : String)
    (w : World) (body : Body) (repos : UserQuery)
    (hresp : net.respond w.sent.length (userRequest userName githubToken) = some body)
    (hdec : unmarshalUserQuery body = .ok repos) :
    getPullRequestsForUser net userName githubToken w =
      .ret (.ok (repos.Data.User.PullRequests.Nodes.elems.map
          fun pr => repoRecord pr.Repository.Name pr))
        ⟨w.sent ++ [userRequest userName githubToken]⟩ := by
  unfold userRequest at hresp
  simp [getPullRequestsForUser, PostTo, hresp, hdec, mapUserPullRequests_eq_map, userRequest]

/-- C1: for every decoded response, `getRepoPullRequests` and `getPullRequestsForUser`
return as many records as the response has pull-request nodes, the i-th record is the one
built from the i-th node and carries its number, and two records share `Repository` and
`Number` only if the nodes at their positions share the number (and, for the user query,
where each node names its repository, the repository name): nothing is dropped, reordered
or deduplicated. -/
theorem mappers_one_record_per_node (net : Net) (githubToken : String) (w : World) (body : Body) :
    (∀ (ownerName repoName : String) (repos : RepoQuery),
      net.respond w.sent.length (repoRequest ownerName repoName githubToken) = some body →
      unmarshalRepoQuery body = .ok repos →
      ∃ prs w1, getRepoPullRequests net ownerName repoName githubToken w = .ret (.ok prs) w1 ∧
        prs.length = repos.Data.Repo.PullRequests.Nodes.elems.length ∧
        (∀ i (hp : i < prs.length) (hn : i < repos.Data.Repo.PullRequests.Nodes.elems.length),
          prs[i] = repoRecord repos.Data.Repo.Name repos.Data.Repo.PullRequests.Nodes.elems[i] ∧
          prs[i].Number = repos.Data.Repo.PullRequests.Nodes.elems[i].Number) ∧
        (∀ i j (hi : i < prs.length) (hj : j < prs.length)
            (ni : i < repos.Data.Repo.PullRequests.Nodes.elems.length)
            (nj : j < repos.Data.Repo.PullRequests.Nodes.elems.length),
          prs[i].Repository = prs[j].Repository → prs[i].Number = prs[j].Number →
          repos.Data.Repo.PullRequests.Nodes.elems[i].Number =
            repos.Data.Repo.PullRequests.Nodes.elems[j].Number)) ∧
    (∀ (userName : String) (repos : UserQuery),
      net.respond w.sent.length (userRequest userName githubToken) = some body →
      unmarshalUserQuery body = .ok repos →
      ∃ prs w1, getPullRequestsForUser net userName githubToken w = .ret (.ok prs) w1 ∧
        prs.length = repos.Data.User.PullRequests.Nodes.elems.length ∧
        (∀ i (hp : i < prs.length) (hn : i < repos.Data.User.PullRequests.Nodes.elems.length),
          prs[i] = repoRecord repos.Data.User.PullRequests.Nodes.elems[i].Repository.Name
              repos.Data.User.PullRequests.Nodes.elems[i] ∧
          prs[i].Number = repos.Data.User.PullRequests.Nodes.elems[i].Number) ∧
        (∀ i j (hi : i < prs.length) (hj : j < prs.length)
            (ni : i < repos.Data.User.PullRequests.Nodes.elems.length)
            (nj : j < repos.Data.User.PullRequests.Nodes.elems.length),
          prs[i].Repository = prs[j].Repository → prs[i].Number = prs[j].Number →
          repos.Data.User.PullRequests.Nodes.elems[i].Repository.Name =
              repos.Data.User.PullRequests.Nodes.elems[j].Repository.Name ∧
            repos.Data.User.PullRequests.Nodes.elems[i].Number =
              repos.Data.User.PullRequests.Nodes.elems[j].Number)) := by
  refine ⟨?_, ?_⟩
  · intro ownerName repoName repos hresp hdec
    refine ⟨_, _, getRepoPullRequests_of_decoded net ownerName repoName githubToken w body repos
      hresp hdec, by simp, ?_, ?_⟩
    · intro i hp hn
      simp [repoRecord]
    · intro i j hi hj ni nj _ hnum
      simpa [repoRecord] using hnum
  · intro userName repos hresp hdec
    refine ⟨_, _, getPullRequestsForUser_of_decoded net userName githubToken w body repos
      hresp hdec, by simp, ?_, ?_⟩
    · intro i hp hn
      simp [repoRecord]
    · intro i j hi hj ni nj hrepo hnum
      exact ⟨by simpa [repoRecord] using hrepo, by simpa [repoRecord] using hnum⟩

/-- C10: for every pull-request node of a decoded response, the `Reviews` of the record
built from it has one `Review` per entry of the node's `reviews.nodes`, in the same
order, with `ReviewerUserName` the entry's reviewer login and `PublishedAt` and `State`
copied. -/
theorem reviews_follow_review_nodes (net : Net) (githubToken : String) (w : World)
    (body : Body) :
    (∀ (ownerName repoName : String) (repos : RepoQuery),
      net.respond w.sent.length (repoRequest ownerName repoName githubToken) = some body →
      unmarshalRepoQuery body = .ok repos →
      ∃ prs w1, getRepoPullRequests net ownerName repoName githubToken w = .ret (.ok prs) w1 ∧
        prs.length = repos.Data.Repo.PullRequests.Nodes.elems.length ∧
        ∀ i (hp : i < prs.length) (hn : i < repos.Data.Repo.PullRequests.Nodes.elems.length),
          prs[i].Reviews.length =
              repos.Data.Repo.PullRequests.Nodes.elems[i].Reviews.Nodes.elems.length ∧
          ∀ k (hr : k < prs[i].Reviews.length)
              (hk : k < repos.Data.Repo.PullRequests.Nodes.elems[i].Reviews.Nodes.elems.length),
            prs[i].Reviews[k].ReviewerUserName =
                repos.Data.Repo.PullRequests.Nodes.elems[i].Reviews.Nodes.elems[k].Reviewer.Username ∧
            prs[i].Reviews[k].PublishedAt =
                repos.Data.Repo.PullRequests.Nodes.elems[i].Reviews.Nodes.elems[k].PublishedAt ∧
            prs[i].Reviews[k].State =
                repos.Data.Repo.PullRequests.Nodes.elems[i].Reviews.Nodes.elems[k].State) ∧
    (∀ (userName : String) (repos : UserQuery),
      net.respond w.sent.length (userRequest userName githubToken) = some body →
      unmarshalUserQuery body = .ok repos →
      ∃ prs w1, getPullRequestsForUser net userName githubToken w = .ret (.ok prs) w1 ∧
        prs.length = repos.Data.User.PullRequests.Nodes.elems.length ∧
        ∀ i (hp : i < prs.length) (hn : i < repos.Data.User.PullRequests.Nodes.elems.length),
          prs[i].Reviews.length =
              repos.Data.User.PullRequests.Nodes.elems[i].Reviews.Nodes.elems.length ∧
          ∀ k (hr : k < prs[i].Reviews.length)
              (hk : k < repos.Data.User.PullRequests.Nodes.elems[i].Reviews.Nodes.elems.length),
            prs[i].Reviews[k].ReviewerUserName =
                repos.Data.User.PullRequests.Nodes.elems[i].Reviews.Nodes.elems[k].Reviewer.Username ∧
            prs[i].Reviews[k].PublishedAt =
                repos.Data.User.PullRequests.Nodes.elems[i].Reviews.Nodes.elems[k].PublishedAt ∧
            prs[i].Reviews[k].State =
                repos.Data.User.PullRequests.Nodes.elems[i].Reviews.Nodes.elems[k].State) := by
  refine ⟨?_, ?_⟩
  · intro ownerName repoName repos hresp hdec
    refine ⟨_, _, getRepoPullRequests_of_decoded net ownerName repoName githubToken w body repos
      hresp hdec, by simp, ?_⟩
    intro i hp hn
    refine ⟨by simp [repoRecord], ?_⟩
    intro k hr hk
    simp [repoRecord]
  · intro userName repos hresp hdec
    refine ⟨_, _, getPullRequestsForUser_of_decoded net userName githubToken w body repos
      hresp hdec, by simp, ?_⟩
    intro i hp hn
    refine ⟨by simp [repoRecord], ?_⟩
    intro k hr hk
    simp [repoRecord]

/-- C5, as the code has it: every record returned by `getRepoPullRequests` has
`Repository` equal to the `data.repo.name` of the decoded response (whatever
`repoName` the query was issued for), and the i-th record returned by
`getPullRequestsForUser` has `Repository` equal to the i-th node's `repository.name`. -/
theorem repository_comes_from_response (net : Net) (githubToken : String) (w : World)
    (body : Body) :
    (∀ (ownerName repoName : String) (repos : RepoQuery),
      net.respond w.sent.length (repoRequest ownerName repoName githubToken) = some body →
      unmarshalRepoQuery body = .ok repos →
      ∃ prs w1, getRepoPullRequests net ownerName repoName githubToken w = .ret (.ok prs) w1 ∧
        ∀ pr ∈ prs, pr.Repository = repos.Data.Repo.Name) ∧
    (∀ (userName : String) (repos : UserQuery),
      net.respond w.sent.length (userRequest userName githubToken) = some body →
      unmarshalUserQuery body = .ok repos →
      ∃ prs w1, getPullRequestsForUser net userName githubToken w = .ret (.ok prs) w1 ∧
        prs.length = repos.Data.User.PullRequests.Nodes.elems.length ∧
        ∀ i (hp : i < prs.length) (hn : i < repos.Data.User.PullRequests.Nodes.elems.length),
          prs[i].Repository = repos.Data.User.PullRequests.Nodes.elems[i].Repository.Name) := by
  refine ⟨?_, ?_⟩
  · intro ownerName repoName repos hresp hdec
    refine ⟨_, _, getRepoPullRequests_of_decoded net ownerName repoName githubToken w body repos
      hresp hdec, ?_⟩
    intro pr hpr
    obtain ⟨node, _, rfl⟩ := List.mem_map.mp hpr
    rfl
  · intro userName repos hresp hdec
    refine ⟨_, _, getPullRequestsForUser_of_decoded net userName githubToken w body repos
      hresp hdec, by simp, ?_⟩
    intro i hp hn
    simp [repoRecord]

/-! ## Lemmas on decoding -/

theorem decodeMembers_unchanged {α : Type} (field : String → Json → α → Except JsonError α)
    (members : List (String × Json)) (cur : α)
    (h : ∀ kv ∈ members, field kv.1 kv.2 cur = .ok cur) :
    decodeMembers field members cur = .ok cur := by
  induction members with
  | nil => rfl
  | cons kv rest ih =>
    have h1 := h kv (List.mem_cons_self _ _)
    simp only [decodeMembers, h1]
    exact ih fun kv' hkv' => h kv' (List.mem_cons_of_mem _ hkv')

theorem isNull_eq {v : Json} (h : isNull v = true) : v = .null := by
  cases v <;> simp [isNull] at h ⊢

theorem unmarshalRepoQuery_lacking (doc : Json) (h : lacksContainer "repo" doc = true) :
    unmarshalRepoQuery (.json doc) = .ok RepoQuery.zero := by
  cases doc with
  | obj members =>
    simp only [lacksContainer, List.all_eq_true] at h
    simp only [unmarshalRepoQuery, decodeStruct]
    apply decodeMembers_unchanged
    intro kv hkv
    have hk := h kv hkv
    unfold repoQueryField
    by_cases hm : matchesField "data" kv.1 = true
    · simp only [hm, if_true]
      simp only [hm, Bool.not_true, Bool.false_or] at hk
      cases hv : kv.2 with
      | null => rfl
      | obj ms =>
        rw [hv] at hk
        simp only [List.all_eq_true] at hk
        simp only [decodeRepoQueryData, decodeStruct]
        rw [decodeMembers_unchanged]
        · rfl
        · intro kv2 hkv2
          have hk2 := hk kv2 hkv2
          unfold repoQueryDataField
          by_cases hm2 : matchesField "repo" kv2.1 = true
          · simp only [hm2, Bool.not_true, Bool.false_or] at hk2
            rw [if_pos hm2, isNull_eq hk2]
            rfl
          · rw [if_neg hm2]
      | _ => rw [hv] at hk; simp at hk
    · simp [hm]
  | _ => simp [lacksContainer] at h

theorem unmarshalUserQuery_lacking (doc : Json) (h : lacksContainer "user" doc = true) :
    unmarshalUserQuery (.json doc) = .ok UserQuery.zero := by
  cases doc with
  | obj members =>
    simp only [lacksContainer, List.all_eq_true] at h
    simp only [unmarshalUserQuery, decodeStruct]
    apply decodeMembers_unchanged
    intro kv hkv
    have hk := h kv hkv
    unfold userQueryField
    by_cases hm : matchesField "data" kv.1 = true
    · simp only [hm, if_true]
      simp only [hm, Bool.not_true, Bool.false_or] at hk
      cases hv : kv.2 with
      | null => rfl
      | obj ms =>
        rw [hv] at hk
        simp only [List.all_eq_true] at hk
        simp only [decodeUserQueryData, decodeStruct]
        rw [decodeMembers_unchanged]
        · rfl
        · intro kv2 hkv2
          have hk2 := hk kv2 hkv2
          unfold userQueryDataField
          by_cases hm2 : matchesField "user" kv2.1 = true
          · simp only [hm2, Bool.not_true, Bool.false_or] at hk2
            rw [if_pos hm2, isNull_eq hk2]
            rfl
          · rw [if_neg hm2]
      | _ => rw [hv] at hk; simp at hk
    · simp [hm]
  | _ => simp [lacksContainer] at h

/-- C2, refuted as stated: a body that parses but lacks the `data` container (the
answer to a bad token) makes `getRepoPullRequests` return an empty list and no error,
and so does a body with `data` but no `user` container for `getPullRequestsForUser`. -/
theorem missing_containers_not_an_error :
    lacksContainer "repo" badCredentialsDoc = true ∧
    getRepoPullRequests (constNet (.json badCredentialsDoc)) "acme" "svc" "t" ⟨[]⟩ =
      .ret (.ok []) ⟨[repoRequest "acme" "svc" "t"]⟩ ∧
    lacksContainer "user" emptyDataDoc = true ∧
    getPullRequestsForUser (constNet (.json emptyDataDoc)) "bob" "t" ⟨[]⟩ =
      .ret (.ok []) ⟨[userRequest "bob" "t"]⟩ := by
  decide

/-- C2, as the code has it: a body that is not parseable JSON makes both mappers return
the decode error and no list; a body that parses to an object but lacks the `data`
container, or the `repo` (repository query) or `user` (user query) container in it (the
member is absent or `null`), makes them return an empty list and no error. -/
theorem decode_error_only_for_unparseable (net : Net) (githubToken : String) (w : World) :
    (∀ (ownerName repoName raw : String),
      net.respond w.sent.length (repoRequest ownerName repoName githubToken) =
        some (.malformed raw) →
      getRepoPullRequests net ownerName repoName githubToken w =
        .ret (.error .SyntaxError) ⟨w.sent ++ [repoRequest ownerName repoName githubToken]⟩) ∧
    (∀ (ownerName repoName : String) (doc : Json),
      net.respond w.sent.length (repoRequest ownerName repoName githubToken) =
        some (.json doc) →
      lacksContainer "repo" doc = true →
      getRepoPullRequests net ownerName repoName githubToken w =
        .ret (.ok []) ⟨w.sent ++ [repoRequest ownerName repoName githubToken]⟩) ∧
    (∀ (userName raw : String),
      net.respond w.sent.length (userRequest userName githubToken) = some (.malformed raw) →
      getPullRequestsForUser net userName githubToken w =
        .ret (.error .SyntaxError) ⟨w.sent ++ [userRequest userName githubToken]⟩) ∧
    (∀ (userName : String) (doc : Json),
      net.respond w.sent.length (userRequest userName githubToken) = some (.json doc) →
      lacksContainer "user" doc = true →
      getPullRequestsForUser net userName githubToken w =
        .ret (.ok []) ⟨w.sent ++ [userRequest userName githubToken]⟩) := by
  refine ⟨?_, ?_, ?_, ?_⟩
  · intro ownerName repoName raw hresp
    unfold repoRequest at hresp
    simp [getRepoPullRequests, PostTo, hresp, unmarshalRepoQuery, repoRequest]
  · intro ownerName repoName doc hresp hlack
    rw [getRepoPullRequests_of_decoded net ownerName repoName githubToken w _ _ hresp
      (unmarshalRepoQuery_lacking doc hlack)]
    rfl
  · intro userName raw hresp
    unfold userRequest at hresp
    simp [getPullRequestsForUser, PostTo, hresp, unmarshalUserQuery, userRequest]
  · intro userName doc hresp hlack
    rw [getPullRequestsForUser_of_decoded net userName githubToken w _ _ hresp
      (unmarshalUserQuery_lacking doc hlack)]
    rfl

theorem map_ok_inv {β γ : Type} {x : Except JsonError β} {f : β → γ} {y : γ}
    (h : x.map f = .ok y) : ∃ b, y = f b := by
  cases x with
  | error e => simp [Except.map] at h
  | ok b => exact ⟨b, by simpa [Except.map] using h.symm⟩

theorem decodeReviewConn_noReviews (v : Json) (h : noReviews v = true) :
    decodeReviewConn v ReviewConn.zero = .ok ReviewConn.zero := by
  cases v with
  | null => rfl
  | obj members =>
    simp only [noReviews, List.all_eq_true] at h
    simp only [decodeReviewConn, decodeStruct]
    apply decodeMembers_unchanged
    intro kv hkv
    have hk := h kv hkv
    unfold reviewConnField
    by_cases hm : matchesField "nodes" kv.1 = true
    · simp only [hm, if_true]
      simp only [hm, Bool.not_true, Bool.false_or] at hk
      cases hv : kv.2 with
      | null => rfl
      | arr items =>
        rw [hv] at hk
        cases items with
        | nil => rfl
        | cons x xs => simp at hk
      | _ => rw [hv] at hk; simp at hk
    · simp [hm]
  | _ => simp [noReviews] at h

theorem prNodeField_bare (kind : QueryKind) (key : String) (v : Json) (n n1 : PRNode)
    (hb : bareMember key v = true)
    (hz : n.PrAuthor = UserRef.zero ∧ n.ReviewDecision = "" ∧ n.Reviews = ReviewConn.zero)
    (h : prNodeField kind key v n = .ok n1) :
    n1.PrAuthor = UserRef.zero ∧ n1.ReviewDecision = "" ∧ n1.Reviews = ReviewConn.zero := by
  simp only [bareMember, Bool.and_eq_true, Bool.or_eq_true, Bool.not_eq_true'] at hb
  obtain ⟨⟨hb1, hb2⟩, hb3⟩ := hb
  unfold prNodeField at h
  by_cases c0 : kind = .user ∧ matchesField "repository" key = true
  · rw [if_pos c0] at h
    obtain ⟨b, rfl⟩ := map_ok_inv h
    exact hz
  rw [if_neg c0] at h
  by_cases c1 : matchesField "number" key = true
  · rw [if_pos c1] at h
    obtain ⟨b, rfl⟩ := map_ok_inv h
    exact hz
  rw [if_neg c1] at h
  by_cases c2 : matchesField "title" key = true
  · rw [if_pos c2] at h
    obtain ⟨b, rfl⟩ := map_ok_inv h
    exact hz
  rw [if_neg c2] at h
  by_cases c3 : matchesField "permalink" key = true
  · rw [if_pos c3] at h
    obtain ⟨b, rfl⟩ := map_ok_inv h
    exact hz
  rw [if_neg c3] at h
  by_cases c4 : matchesField "updatedAt" key = true
  · rw [if_pos c4] at h
    obtain ⟨b, rfl⟩ := map_ok_inv h
    exact hz
  rw [if_neg c4] at h
  by_cases c5 : matchesField "state" key = true
  · rw [if_pos c5] at h
    obtain ⟨b, rfl⟩ := map_ok_inv h
    exact hz
  rw [if_neg c5] at h
  by_cases c6 : matchesField "additions" key = true
  · rw [if_pos c6] at h
    obtain ⟨b, rfl⟩ := map_ok_inv h
    exact hz
  rw [if_neg c6] at h
  by_cases c7 : matchesField "deletions" key = true
  · rw [if_pos c7] at h
    obtain ⟨b, rfl⟩ := map_ok_inv h
    exact hz
  rw [if_neg c7] at h
  by_cases c8 : matchesField "changedFiles" key = true
  · rw [if_pos c8] at h
    obtain ⟨b, rfl⟩ := map_ok_inv h
    exact hz
  rw [if_neg c8] at h
  by_cases c9 : matchesField "PrAuthor" key = true
  · rw [if_pos c9] at h
    have hv : v = .null := isNull_eq (hb1.resolve_left (by rw [c9]; decide))
    subst hv
    simp only [decodeUserRef, decodeStruct, Except.map] at h
    cases h
    exact hz
  rw [if_neg c9] at h
  by_cases c10 : matchesField "reviewDecision" key = true
  · rw [if_pos c10] at h
    have hv : v = .null := isNull_eq (hb2.resolve_left (by rw [c10]; decide))
    subst hv
    simp only [decodeString, Except.map] at h
    cases h
    exact hz
  rw [if_neg c10] at h
  by_cases c11 : matchesField "reviews" key = true
  · rw [if_pos c11] at h
    have hv : noReviews v = true := hb3.resolve_left (by rw [c11]; decide)
    rw [hz.2.2, decodeReviewConn_noReviews v hv] at h
    simp only [Except.map] at h
    cases h
    exact ⟨hz.1, hz.2.1, rfl⟩
  rw [if_neg c11] at h
  cases h
  exact hz

theorem decodeMembers_bare (kind : QueryKind) (members : List (String × Json)) (n n1 : PRNode)
    (hbare : bareNode members = true)
    (hz : n.PrAuthor = UserRef.zero ∧ n.ReviewDecision = "" ∧ n.Reviews = ReviewConn.zero)
    (h : decodeMembers (prNodeField kind) members n = .ok n1) :
    n1.PrAuthor = UserRef.zero ∧ n1.ReviewDecision = "" ∧ n1.Reviews = ReviewConn.zero := by
  induction members generalizing n with
  | nil =>
    simp [decodeMembers] at h
    subst h
    exact hz
  | cons kv rest ih =>
    simp only [bareNode, List.all_cons, Bool.and_eq_true] at hbare
    simp only [decodeMembers] at h
    cases hf : prNodeField kind kv.1 kv.2 n with
    | error e => simp [hf] at h
    | ok n2 =>
      simp only [hf] at h
      exact ih n2 (by simpa [bareNode] using hbare.2)
        (prNodeField_bare kind kv.1 kv.2 n n2 hbare.1 hz hf) h

/-! ## Well-typed answers decode -/

theorem map_ok_of_ok {β γ : Type} {x : Except JsonError β} (f : β → γ)
    (h : ∃ b, x = .ok b) : ∃ r, x.map f = .ok r := by
  obtain ⟨b, rfl⟩ := h
  exact ⟨f b, rfl⟩

theorem map_ok_inv_eq {β γ : Type} {x : Except JsonError β} {f : β → γ} {y : γ}
    (h : x.map f = .ok y) : ∃ b, x = .ok b ∧ y = f b := by
  cases x with
  | error e => simp [Except.map] at h
  | ok b => exact ⟨b, rfl, by simpa [Except.map] using h.symm⟩

theorem decodeString_ok (v : Json) (h : fitsString v = true) (cur : String) :
    ∃ r, decodeString v cur = .ok r := by
  cases v <;> simp [fitsString] at h <;> simp [decodeString]

theorem decodeInt_ok (v : Json) (h : fitsInt v = true) (cur : Int) :
    ∃ r, decodeInt v cur = .ok r := by
  cases v <;> simp [fitsInt] at h <;> simp [decodeInt, h]

theorem decodeMembers_ok {α : Type} (field : String → Json → α → Except JsonError α)
    (members : List (String × Json))
    (h : ∀ kv ∈ members, ∀ cur, ∃ r, field kv.1 kv.2 cur = .ok r) :
    ∀ cur, ∃ r, decodeMembers field members cur = .ok r := by
  induction members with
  | nil => intro cur; exact ⟨cur, rfl⟩
  | cons kv rest ih =>
    intro cur
    obtain ⟨next, hnext⟩ := h kv (List.mem_cons_self _ _) cur
    obtain ⟨r, hr⟩ := ih (fun kv2 hkv2 => h kv2 (List.mem_cons_of_mem _ hkv2)) next
    exact ⟨r, by simp only [decodeMembers, hnext, hr]⟩

theorem decodeStruct_ok {α : Type} (field : String → Json → α → Except JsonError α)
    (member : String → Json → Bool)
    (h : ∀ k v, member k v = true → ∀ cur, ∃ r, field k v cur = .ok r)
    (v : Json) (hv : fitsStruct member v = true) (cur : α) :
    ∃ r, decodeStruct field v cur = .ok r := by
  cases v with
  | null => exact ⟨cur, rfl⟩
  | obj members =>
    simp only [fitsStruct, List.all_eq_true] at hv
    exact decodeMembers_ok field members (fun kv hkv => h kv.1 kv.2 (hv kv hkv)) cur
  | _ => simp [fitsStruct] at hv

theorem decodeElems_ok {α : Type} (elem : Json → α → Except JsonError α) (zero : α)
    (items : List Json) (h : ∀ v ∈ items, ∀ cur, ∃ r, elem v cur = .ok r) :
    ∀ backing, ∃ rs, decodeElems elem zero items backing = .ok rs := by
  induction items with
  | nil => intro backing; exact ⟨[], rfl⟩
  | cons v vs ih =>
    intro backing
    obtain ⟨x, hx⟩ := h v (List.mem_cons_self _ _) (backing.headD zero)
    obtain ⟨xs, hxs⟩ := ih (fun v2 hv2 => h v2 (List.mem_cons_of_mem _ hv2)) backing.tail
    exact ⟨x :: xs, by simp only [decodeElems, hx, hxs]⟩

theorem decodeSlice_ok {α : Type} (elem : Json → α → Except JsonError α) (zero : α)
    (fits : Json → Bool) (h : ∀ v, fits v = true → ∀ cur, ∃ r, elem v cur = .ok r)
    (v : Json) (hv : fitsSlice fits v = true) (s : GoSlice α) :
    ∃ r, decodeSlice elem zero v s = .ok r := by
  cases v with
  | null => exact ⟨GoSlice.nil, rfl⟩
  | arr items =>
    simp only [fitsSlice, List.all_eq_true] at hv
    cases items with
    | nil => exact ⟨GoSlice.nil, rfl⟩
    | cons x xs =>
      obtain ⟨rs, hrs⟩ := decodeElems_ok elem zero (x :: xs) (fun y hy => h y (hv y hy))
        (s.elems ++ s.spare)
      exact ⟨⟨rs, (s.elems ++ s.spare).drop (x :: xs).length⟩,
        by simp only [decodeSlice, hrs]⟩
  | _ => simp [fitsSlice] at hv

theorem decodeUserRef_ok (v : Json) (hv : fitsStruct fitsUserRefMember v = true) (cur : UserRef) :
    ∃ r, decodeUserRef v cur = .ok r := by
  refine decodeStruct_ok userRefField fitsUserRefMember ?_ v hv cur
  intro k x hm c
  unfold fitsUserRefMember at hm
  unfold userRefField
  by_cases c1 : matchesField "username" k = true
  · rw [if_pos c1] at hm ⊢
    exact map_ok_of_ok _ (decodeString_ok x hm _)
  · rw [if_neg c1]
    exact ⟨c, rfl⟩

theorem decodeReviewNode_ok (v : Json) (hv : fitsStruct fitsReviewNodeMember v = true)
    (cur : ReviewNode) : ∃ r, decodeReviewNode v cur = .ok r := by
  refine decodeStruct_ok reviewNodeField fitsReviewNodeMember ?_ v hv cur
  intro k x hm c
  unfold fitsReviewNodeMember at hm
  unfold reviewNodeField
  by_cases c1 : matchesField "reviewer" k = true
  · rw [if_pos c1] at hm ⊢
    exact map_ok_of_ok _ (decodeUserRef_ok x hm _)
  rw [if_neg c1] at hm ⊢
  by_cases c2 : matchesField "publishedAt" k = true
  · rw [if_pos c2] at hm ⊢
    exact map_ok_of_ok _ (decodeString_ok x hm _)
  rw [if_neg c2] at hm ⊢
  by_cases c3 : matchesField "state" k = true
  · rw [if_pos c3] at hm ⊢
    exact map_ok_of_ok _ (decodeString_ok x hm _)
  rw [if_neg c3]
  exact ⟨c, rfl⟩

theorem decodeReviewConn_ok (v : Json) (hv : fitsStruct fitsReviewConnMember v = true)
    (cur : ReviewConn) : ∃ r, decodeReviewConn v cur = .ok r := by
  refine decodeStruct_ok reviewConnField fitsReviewConnMember ?_ v hv cur
  intro k x hm c
  unfold fitsReviewConnMember at hm
  unfold reviewConnField
  by_cases c1 : matchesField "nodes" k = true
  · rw [if_pos c1] at hm ⊢
    exact map_ok_of_ok _ (decodeSlice_ok decodeReviewNode ReviewNode.zero _
      (fun y hy cur2 => decodeReviewNode_ok y hy cur2) x hm _)
  · rw [if_neg c1]
    exact ⟨c, rfl⟩

theorem decodeRepoRef_ok (v : Json) (hv : fitsStruct fitsRepoRefMember v = true) (cur : RepoRef) :
    ∃ r, decodeRepoRef v cur = .ok r := by
  refine decodeStruct_ok repoRefField fitsRepoRefMember ?_ v hv cur
  intro k x hm c
  unfold fitsRepoRefMember at hm
  unfold repoRefField
  by_cases c1 : matchesField "name" k = true
  · rw [if_pos c1] at hm ⊢
    exact map_ok_of_ok _ (decodeString_ok x hm _)
  · rw [if_neg c1]
    exact ⟨c, rfl⟩

theorem decodePRNode_ok (kind : QueryKind) (v : Json)
    (hv : fitsStruct (fitsPRNodeMember kind) v = true) (cur : PRNode) :
    ∃ r, decodePRNode kind v cur = .ok r := by
  refine decodeStruct_ok (prNodeField kind) (fitsPRNodeMember kind) ?_ v hv cur
  intro k x hm c
  unfold fitsPRNodeMember at hm
  unfold prNodeField
  by_cases c0 : kind = .user ∧ matchesField "repository" k = true
  · rw [if_pos c0] at hm ⊢
    exact map_ok_of_ok _ (decodeRepoRef_ok x hm _)
  rw [if_neg c0] at hm ⊢
  by_cases c1 : matchesField "number" k = true
  · rw [if_pos c1] at hm ⊢
    exact map_ok_of_ok _ (decodeInt_ok x hm _)
  rw [if_neg c1] at hm ⊢
  by_cases c2 : matchesField "title" k = true
  · rw [if_pos c2] at hm ⊢
    exact map_ok_of_ok _ (decodeString_ok x hm _)
  rw [if_neg c2] at hm ⊢
  by_cases c3 : matchesField "permalink" k = true
  · rw [if_pos c3] at hm ⊢
    exact map_ok_of_ok _ (decodeString_ok x hm _)
  rw [if_neg c3] at hm ⊢
  by_cases c4 : matchesField "updatedAt" k = true
  · rw [if_pos c4] at hm ⊢
    exact map_ok_of_ok _ (decodeString_ok x hm _)
  rw [if_neg c4] at hm ⊢
  by_cases c5 : matchesField "state" k = true
  · rw [if_pos c5] at hm ⊢
    exact map_ok_of_ok _ (decodeString_ok x hm _)
  rw [if_neg c5] at hm ⊢
  by_cases c6 : matchesField "additions" k = true
  · rw [if_pos c6] at hm ⊢
    exact map_ok_of_ok _ (decodeInt_ok x hm _)
  rw [if_neg c6] at hm ⊢
  by_cases c7 : matchesField "deletions" k = true
  · rw [if_pos c7] at hm ⊢
    exact map_ok_of_ok _ (decodeInt_ok x hm _)
  rw [if_neg c7] at hm ⊢
  by_cases c8 : matchesField "changedFiles" k = true
  · rw [if_pos c8] at hm ⊢
    exact map_ok_of_ok _ (decodeInt_ok x hm _)
  rw [if_neg c8] at hm ⊢
  by_cases c9 : matchesField "PrAuthor" k = true
  · rw [if_pos c9] at hm ⊢
    exact map_ok_of_ok _ (decodeUserRef_ok x hm _)
  rw [if_neg c9] at hm ⊢
  by_cases c10 : matchesField "reviewDecision" k = true
  · rw [if_pos c10] at hm ⊢
    exact map_ok_of_ok _ (decodeString_ok x hm _)
  rw [if_neg c10] at hm ⊢
  by_cases c11 : matchesField "reviews" k = true
  · rw [if_pos c11] at hm ⊢
    exact map_ok_of_ok _ (decodeReviewConn_ok x hm _)
  rw [if_neg c11]
  exact ⟨c, rfl⟩

theorem decodePRConn_ok (kind : QueryKind) (v : Json)
    (hv : fitsStruct (fitsPRConnMember kind) v = true) (cur : PRConn) :
    ∃ r, decodePRConn kind v cur = .ok r := by
  refine decodeStruct_ok (prConnField kind) (fitsPRConnMember kind) ?_ v hv cur
  intro k x hm c
  unfold fitsPRConnMember at hm
  unfold prConnField
  by_cases c1 : matchesField "nodes" k = true
  · rw [if_pos c1] at hm ⊢
    exact map_ok_of_ok _ (decodeSlice_ok (decodePRNode kind) PRNode.zero _
      (fun y hy cur2 => decodePRNode_ok kind y hy cur2) x hm _)
  · rw [if_neg c1]
    exact ⟨c, rfl⟩

theorem decodeRepoData_ok (v : Json) (hv : fitsStruct fitsRepoDataMember v = true)
    (cur : RepoData) : ∃ r, decodeRepoData v cur = .ok r := by
  refine decodeStruct_ok repoDataField fitsRepoDataMember ?_ v hv cur
  intro k x hm c
  unfold fitsRepoDataMember at hm
  unfold repoDataField
  by_cases c1 : matchesField "name" k = true
  · rw [if_pos c1] at hm ⊢
    exact map_ok_of_ok _ (decodeString_ok x hm _)
  rw [if_neg c1] at hm ⊢
  by_cases c2 : matchesField "pullRequests" k = true
  · rw [if_pos c2] at hm ⊢
    exact map_ok_of_ok _ (decodePRConn_ok .repo x hm _)
  rw [if_neg c2]
  exact ⟨c, rfl⟩

theorem decodeUserData_ok (v : Json) (hv : fitsStruct fitsUserDataMember v = true)
    (cur : UserData) : ∃ r, decodeUserData v cur = .ok r := by
  refine decodeStruct_ok userDataField fitsUserDataMember ?_ v hv cur
  intro k x hm c
  unfold fitsUserDataMember at hm
  unfold userDataField
  by_cases c1 : matchesField "login" k = true
  · rw [if_pos c1] at hm ⊢
    exact map_ok_of_ok _ (decodeString_ok x hm _)
  rw [if_neg c1] at hm ⊢
  by_cases c2 : matchesField "pullRequests" k = true
  · rw [if_pos c2] at hm ⊢
    exact map_ok_of_ok _ (decodePRConn_ok .user x hm _)
  rw [if_neg c2]
  exact ⟨c, rfl⟩

theorem decodeRepoQueryData_ok (v : Json) (hv : fitsStruct fitsRepoQueryDataMember v = true)
    (cur : RepoQueryData) : ∃ r, decodeRepoQueryData v cur = .ok r := by
  refine decodeStruct_ok repoQueryDataField fitsRepoQueryDataMember ?_ v hv cur
  intro k x hm c
  unfold fitsRepoQueryDataMember at hm
  unfold repoQueryDataField
  by_cases c1 : matchesField "repo" k = true
  · rw [if_pos c1] at hm ⊢
    exact map_ok_of_ok _ (decodeRepoData_ok x hm _)
  · rw [if_neg c1]
    exact ⟨c, rfl⟩

theorem decodeUserQueryData_ok (v : Json) (hv : fitsStruct fitsUserQueryDataMember v = true)
    (cur : UserQueryData) : ∃ r, decodeUserQueryData v cur = .ok r := by
  refine decodeStruct_ok userQueryDataField fitsUserQueryDataMember ?_ v hv cur
  intro k x hm c
  unfold fitsUserQueryDataMember at hm
  unfold userQueryDataField
  by_cases c1 : matchesField "user" k = true
  · rw [if_pos c1] at hm ⊢
    exact map_ok_of_ok _ (decodeUserData_ok x hm _)
  · rw [if_neg c1]
    exact ⟨c, rfl⟩

/-- A well-typed answer to the repository query decodes. -/
theorem unmarshalRepoQuery_ok (doc : Json) (h : fitsRepoQuery doc = true) :
    ∃ repos, unmarshalRepoQuery (.json doc) = .ok repos := by
  refine decodeStruct_ok repoQueryField _ ?_ doc h RepoQuery.zero
  intro k x hm c
  unfold repoQueryField
  by_cases c1 : matchesField "data" k = true
  · rw [if_pos c1] at hm ⊢
    exact map_ok_of_ok _ (decodeRepoQueryData_ok x hm _)
  · rw [if_neg c1]
    exact ⟨c, rfl⟩

/-- A well-typed answer to the user query decodes. -/
theorem unmarshalUserQuery_ok (doc : Json) (h : fitsUserQuery doc = true) :
    ∃ repos, unmarshalUserQuery (.json doc) = .ok repos := by
  refine decodeStruct_ok userQueryField _ ?_ doc h UserQuery.zero
  intro k x hm c
  unfold userQueryField
  by_cases c1 : matchesField "data" k = true
  · rw [if_pos c1] at hm ⊢
    exact map_ok_of_ok _ (decodeUserQueryData_ok x hm _)
  · rw [if_neg c1]
    exact ⟨c, rfl⟩

/-! ## What a member does to a field -/

theorem matchesField_excl {f g k : String} (h : matchesField f k = true)
    (hne : foldName f ≠ foldName g) : matchesField g k = false := by
  unfold matchesField at h ⊢
  have hk : foldName k = foldName f := by simpa using h
  rw [hk]
  simpa using hne

theorem decodeMembers_untouched {α β : Type} (field : String → Json → α → Except JsonError α)
    (f : String) (proj : α → β) (dec : Json → β → Except JsonError β)
    (hframe : FieldFrame field f proj dec) (members : List (String × Json)) :
    ∀ cur r, (members.filter fun kv => matchesField f kv.1) = [] →
      decodeMembers field members cur = .ok r → proj r = proj cur := by
  induction members with
  | nil =>
    intro cur r _ h
    simp only [decodeMembers, Except.ok.injEq] at h
    rw [h]
  | cons kv rest ih =>
    intro cur r hnone h
    simp only [decodeMembers] at h
    cases hf : field kv.1 kv.2 cur with
    | error e => simp [hf] at h
    | ok next =>
      simp only [hf] at h
      have hkv : matchesField f kv.1 = false := by
        by_contra hc
        simp only [Bool.not_eq_false] at hc
        simp [List.filter_cons, hc] at hnone
      have hrest : (rest.filter fun kv => matchesField f kv.1) = [] := by
        simpa [List.filter_cons, hkv] using hnone
      rw [ih next r hrest h]
      exact (hframe kv.1 kv.2 cur next hf).2 hkv

/-- The one member of an object that is stored into a field is decoded into the value
the field had before. -/
theorem decodeMembers_onlyMember {α β : Type}
    (field : String → Json → α → Except JsonError α)
    (f : String) (proj : α → β) (dec : Json → β → Except JsonError β)
    (hframe : FieldFrame field f proj dec) (members : List (String × Json)) :
    ∀ cur r v, onlyMember f members = some v →
      decodeMembers field members cur = .ok r → dec v (proj cur) = .ok (proj r) := by
  induction members with
  | nil =>
    intro cur r v hv
    simp [onlyMember] at hv
  | cons kv rest ih =>
    intro cur r v hv h
    simp only [decodeMembers] at h
    cases hf : field kv.1 kv.2 cur with
    | error e => simp [hf] at h
    | ok next =>
      simp only [hf] at h
      by_cases hkv : matchesField f kv.1 = true
      · have hrest : (rest.filter fun kv => matchesField f kv.1) = [] ∧ kv.2 = v := by
          unfold onlyMember at hv
          rw [List.filter_cons, if_pos hkv] at hv
          cases hr : (rest.filter fun kv => matchesField f kv.1) with
          | nil => rw [hr] at hv; exact ⟨rfl, by simpa using hv⟩
          | cons a as => rw [hr] at hv; simp at hv
        rw [decodeMembers_untouched field f proj dec hframe rest next r hrest.1 h, ← hrest.2]
        exact (hframe kv.1 kv.2 cur next hf).1 hkv
      · simp only [Bool.not_eq_true] at hkv
        have hv2 : onlyMember f rest = some v := by
          unfold onlyMember at hv ⊢
          rw [List.filter_cons, if_neg (by simp [hkv])] at hv
          exact hv
        rw [← (hframe kv.1 kv.2 cur next hf).2 hkv]
        exact ih next r v hv2 h

/-- An `int` field ends with the value of the last member stored into it that is not
`null`, or as it was when there is none. -/
theorem decodeMembers_lastInt {α : Type} (field : String → Json → α → Except JsonError α)
    (f : String) (proj : α → Int) (hframe : FieldFrame field f proj decodeInt)
    (members : List (String × Json)) :
    ∀ cur r, decodeMembers field members cur = .ok r →
      proj r = if isNull (lastValue f members) then proj cur else intOf (lastValue f members) := by
  induction members with
  | nil =>
    intro cur r h
    simp only [decodeMembers, Except.ok.injEq] at h
    simp [lastValue, isNull, h]
  | cons kv rest ih =>
    intro cur r h
    simp only [decodeMembers] at h
    cases hf : field kv.1 kv.2 cur with
    | error e => simp [hf] at h
    | ok next =>
      simp only [hf] at h
      have hr := ih next r h
      have hfr := hframe kv.1 kv.2 cur next hf
      by_cases hl : isNull (lastValue f rest) = true
      · rw [if_pos hl] at hr
        by_cases hkv : matchesField f kv.1 = true
        · have e : lastValue f (kv :: rest) = kv.2 := by simp [lastValue, hl, hkv]
          have hd := hfr.1 hkv
          rw [e, hr]
          cases hv : kv.2 with
          | null =>
            rw [hv] at hd
            simp only [decodeInt, Except.ok.injEq] at hd
            simp [isNull, hd]
          | int n =>
            rw [hv] at hd
            simp only [decodeInt] at hd
            split_ifs at hd
            simp only [Except.ok.injEq] at hd
            simp [isNull, intOf, hd]
          | _ => rw [hv] at hd; simp [decodeInt] at hd
        · simp only [Bool.not_eq_true] at hkv
          have e : lastValue f (kv :: rest) = .null := by simp [lastValue, hl, hkv]
          rw [e, hr, hfr.2 hkv]
          simp [isNull]
      · have e : lastValue f (kv :: rest) = lastValue f rest := by simp [lastValue, hl]
        rw [if_neg hl] at hr
        rw [e, hr, if_neg hl]

/-- A `string` field ends with the value of the last member stored into it that is not
`null`, or as it was when there is none. -/
theorem decodeMembers_lastString {α : Type} (field : String → Json → α → Except JsonError α)
    (f : String) (proj : α → String) (hframe : FieldFrame field f proj decodeString)
    (members : List (String × Json)) :
    ∀ cur r, decodeMembers field members cur = .ok r →
      proj r = if isNull (lastValue f members) then proj cur else strOf (lastValue f members) := by
  induction members with
  | nil =>
    intro cur r h
    simp only [decodeMembers, Except.ok.injEq] at h
    simp [lastValue, isNull, h]
  | cons kv rest ih =>
    intro cur r h
    simp only [decodeMembers] at h
    cases hf : field kv.1 kv.2 cur with
    | error e => simp [hf] at h
    | ok next =>
      simp only [hf] at h
      have hr := ih next r h
      have hfr := hframe kv.1 kv.2 cur next hf
      by_cases hl : isNull (lastValue f rest) = true
      · rw [if_pos hl] at hr
        by_cases hkv : matchesField f kv.1 = true
        · have e : lastValue f (kv :: rest) = kv.2 := by simp [lastValue, hl, hkv]
          have hd := hfr.1 hkv
          rw [e, hr]
          cases hv : kv.2 with
          | null =>
            rw [hv] at hd
            simp only [decodeString, Except.ok.injEq] at hd
            simp [isNull, hd]
          | str s =>
            rw [hv] at hd
            simp only [decodeString, Except.ok.injEq] at hd
            simp [isNull, strOf, hd]
          | _ => rw [hv] at hd; simp [decodeString] at hd
        · simp only [Bool.not_eq_true] at hkv
          have e : lastValue f (kv :: rest) = .null := by simp [lastValue, hl, hkv]
          rw [e, hr, hfr.2 hkv]
          simp [isNull]
      · have e : lastValue f (kv :: rest) = lastValue f rest := by simp [lastValue, hl]
        rw [if_neg hl] at hr
        rw [e, hr, if_neg hl]

/-- A member of a node object changes one field of the node, or none. -/
theorem prNodeField_cases (kind : QueryKind) (k : String) (v : Json) (cur r : PRNode)
    (h : prNodeField kind k v cur = .ok r) :
    (kind = .user ∧ matchesField "repository" k = true ∧
      ∃ b, decodeRepoRef v cur.Repository = .ok b ∧ r = { cur with Repository := b }) ∨
    (matchesField "number" k = true ∧
      ∃ b, decodeInt v cur.Number = .ok b ∧ r = { cur with Number := b }) ∨
    (matchesField "title" k = true ∧
      ∃ b, decodeString v cur.Title = .ok b ∧ r = { cur with Title := b }) ∨
    (matchesField "permalink" k = true ∧
      ∃ b, decodeString v cur.Permalink = .ok b ∧ r = { cur with Permalink := b }) ∨
    (matchesField "updatedAt" k = true ∧
      ∃ b, decodeString v cur.UpdatedAt = .ok b ∧ r = { cur with UpdatedAt := b }) ∨
    (matchesField "state" k = true ∧
      ∃ b, decodeString v cur.State = .ok b ∧ r = { cur with State := b }) ∨
    (matchesField "additions" k = true ∧
      ∃ b, decodeInt v cur.Additions = .ok b ∧ r = { cur with Additions := b }) ∨
    (matchesField "deletions" k = true ∧
      ∃ b, decodeInt v cur.Deletions = .ok b ∧ r = { cur with Deletions := b }) ∨
    (matchesField "changedFiles" k = true ∧
      ∃ b, decodeInt v cur.ChangedFiles = .ok b ∧ r = { cur with ChangedFiles := b }) ∨
    (matchesField "PrAuthor" k = true ∧
      ∃ b, decodeUserRef v cur.PrAuthor = .ok b ∧ r = { cur with PrAuthor := b }) ∨
    (matchesField "reviewDecision" k = true ∧
      ∃ b, decodeString v cur.ReviewDecision = .ok b ∧ r = { cur with ReviewDecision := b }) ∨
    (matchesField "reviews" k = true ∧
      ∃ b, decodeReviewConn v cur.Reviews = .ok b ∧ r = { cur with Reviews := b }) ∨
    ((matchesField "number" k = false ∧ matchesField "title" k = false ∧ matchesField "permalink" k = false ∧ matchesField "updatedAt" k = false ∧ matchesField "state" k = false ∧ matchesField "additions" k = false ∧ matchesField "deletions" k = false ∧ matchesField "changedFiles" k = false) ∧
      r = cur) := by
  unfold prNodeField at h
  by_cases c0 : kind = .user ∧ matchesField "repository" k = true
  · rw [if_pos c0] at h
    obtain ⟨b, hb, rfl⟩ := map_ok_inv_eq h
    exact Or.inl ⟨c0.1, c0.2, b, hb, rfl⟩
  rw [if_neg c0] at h
  right
  by_cases c1 : matchesField "number" k = true
  · rw [if_pos c1] at h
    obtain ⟨b, hb, rfl⟩ := map_ok_inv_eq h
    exact Or.inl ⟨c1, b, hb, rfl⟩
  rw [if_neg c1] at h
  right
  by_cases c2 : matchesField "title" k = true
  · rw [if_pos c2] at h
    obtain ⟨b, hb, rfl⟩ := map_ok_inv_eq h
    exact Or.inl ⟨c2, b, hb, rfl⟩
  rw [if_neg c2] at h
  right
  by_cases c3 : matchesField "permalink" k = true
  · rw [if_pos c3] at h
    obtain ⟨b, hb, rfl⟩ := map_ok_inv_eq h
    exact Or.inl ⟨c3, b, hb, rfl⟩
  rw [if_neg c3] at h
  right
  by_cases c4 : matchesField "updatedAt" k = true
  · rw [if_pos c4] at h
    obtain ⟨b, hb, rfl⟩ := map_ok_inv_eq h
    exact Or.inl ⟨c4, b, hb, rfl⟩
  rw [if_neg c4] at h
  right
  by_cases c5 : matchesField "state" k = true
  · rw [if_pos c5] at h
    obtain ⟨b, hb, rfl⟩ := map_ok_inv_eq h
    exact Or.inl ⟨c5, b, hb, rfl⟩
  rw [if_neg c5] at h
  right
  by_cases c6 : matchesField "additions" k = true
  · rw [if_pos c6] at h
    obtain ⟨b, hb, rfl⟩ := map_ok_inv_eq h
    exact Or.inl ⟨c6, b, hb, rfl⟩
  rw [if_neg c6] at h
  right
  by_cases c7 : matchesField "deletions" k = true
  · rw [if_pos c7] at h
    obtain ⟨b, hb, rfl⟩ := map_ok_inv_eq h
    exact Or.inl ⟨c7, b, hb, rfl⟩
  rw [if_neg c7] at h
  right
  by_cases c8 : matchesField "changedFiles" k = true
  · rw [if_pos c8] at h
    obtain ⟨b, hb, rfl⟩ := map_ok_inv_eq h
    exact Or.inl ⟨c8, b, hb, rfl⟩
  rw [if_neg c8] at h
  right
  by_cases c9 : matchesField "PrAuthor" k = true
  · rw [if_pos c9] at h
    obtain ⟨b, hb, rfl⟩ := map_ok_inv_eq h
    exact Or.inl ⟨c9, b, hb, rfl⟩
  rw [if_neg c9] at h
  right
  by_cases c10 : matchesField "reviewDecision" k = true
  · rw [if_pos c10] at h
    obtain ⟨b, hb, rfl⟩ := map_ok_inv_eq h
    exact Or.inl ⟨c10, b, hb, rfl⟩
  rw [if_neg c10] at h
  right
  by_cases c11 : matchesField "reviews" k = true
  · rw [if_pos c11] at h
    obtain ⟨b, hb, rfl⟩ := map_ok_inv_eq h
    exact Or.inl ⟨c11, b, hb, rfl⟩
  rw [if_neg c11] at h
  right
  simp only [Except.ok.injEq] at h
  simp only [Bool.not_eq_true] at c1 c2 c3 c4 c5 c6 c7 c8
  exact ⟨⟨c1, c2, c3, c4, c5, c6, c7, c8⟩, h.symm⟩

theorem prNodeField_frame_Number (kind : QueryKind) :
    FieldFrame (prNodeField kind) "number" (fun n => n.Number) decodeInt := by
  intro k v cur r h
  rcases prNodeField_cases kind k v cur r h with
    ⟨_, hm, b, _, rfl⟩ | ⟨hm, b, hb, rfl⟩ | ⟨hm, b, hb, rfl⟩ | ⟨hm, b, hb, rfl⟩ | ⟨hm, b, hb, rfl⟩ | ⟨hm, b, hb, rfl⟩ | ⟨hm, b, hb, rfl⟩ | ⟨hm, b, hb, rfl⟩ | ⟨hm, b, hb, rfl⟩ | ⟨hm, b, _, rfl⟩ | ⟨hm, b, _, rfl⟩ | ⟨hm, b, _, rfl⟩ | ⟨hn, rfl⟩
  · exact ⟨fun hf => (by rw [matchesField_excl hm (g := "number") (by decide)] at hf; cases hf),
      fun _ => rfl⟩
  · exact ⟨fun _ => hb, fun hf => (by rw [hm] at hf; cases hf)⟩
  · exact ⟨fun hf => (by rw [matchesField_excl hm (g := "number") (by decide)] at hf; cases hf),
      fun _ => rfl⟩
  · exact ⟨fun hf => (by rw [matchesField_excl hm (g := "number") (by decide)] at hf; cases hf),
      fun _ => rfl⟩
  · exact ⟨fun hf => (by rw [matchesField_excl hm (g := "number") (by decide)] at hf; cases hf),
      fun _ => rfl⟩
  · exact ⟨fun hf => (by rw [matchesField_excl hm (g := "number") (by decide)] at hf; cases hf),
      fun _ => rfl⟩
  · exact ⟨fun hf => (by rw [matchesField_excl hm (g := "number") (by decide)] at hf; cases hf),
      fun _ => rfl⟩
  · exact ⟨fun hf => (by rw [matchesField_excl hm (g := "number") (by decide)] at hf; cases hf),
      fun _ => rfl⟩
  · exact ⟨fun hf => (by rw [matchesField_excl hm (g := "number") (by decide)] at hf; cases hf),
      fun _ => rfl⟩
  · exact ⟨fun hf => (by rw [matchesField_excl hm (g := "number") (by decide)] at hf; cases hf),
      fun _ => rfl⟩
  · exact ⟨fun hf => (by rw [matchesField_excl hm (g := "number") (by decide)] at hf; cases hf),
      fun _ => rfl⟩
  · exact ⟨fun hf => (by rw [matchesField_excl hm (g := "number") (by decide)] at hf; cases hf),
      fun _ => rfl⟩
  · exact ⟨fun hf => (by rw [hn.1] at hf; cases hf), fun _ => rfl⟩

theorem prNodeField_frame_Title (kind : QueryKind) :
    FieldFrame (prNodeField kind) "title" (fun n => n.Title) decodeString := by
  intro k v cur r h
  rcases prNodeField_cases kind k v cur r h with
    ⟨_, hm, b, _, rfl⟩ | ⟨hm, b, hb, rfl⟩ | ⟨hm, b, hb, rfl⟩ | ⟨hm, b, hb, rfl⟩ | ⟨hm, b, hb, rfl⟩ | ⟨hm, b, hb, rfl⟩ | ⟨hm, b, hb, rfl⟩ | ⟨hm, b, hb, rfl⟩ | ⟨hm, b, hb, rfl⟩ | ⟨hm, b, _, rfl⟩ | ⟨hm, b, _, rfl⟩ | ⟨hm, b, _, rfl⟩ | ⟨hn, rfl⟩
  · exact ⟨fun hf => (by rw [matchesField_excl hm (g := "title") (by decide)] at hf; cases hf),
      fun _ => rfl⟩
  · exact ⟨fun hf => (by rw [matchesField_excl hm (g := "title") (by decide)] at hf; cases hf),
      fun _ => rfl⟩
  · exact ⟨fun _ => hb, fun hf => (by rw [hm] at hf; cases hf)⟩
  · exact ⟨fun hf => (by rw [matchesField_excl hm (g := "title") (by decide)] at hf; cases hf),
      fun _ => rfl⟩
  · exact ⟨fun hf => (by rw [matchesField_excl hm (g := "title") (by decide)] at hf; cases hf),
      fun _ => rfl⟩
  · exact ⟨fun hf => (by rw [matchesField_excl hm (g := "title") (by decide)] at hf; cases hf),
      fun _ => rfl⟩
  · exact ⟨fun hf => (by rw [matchesField_excl hm (g := "title") (by decide)] at hf; cases hf),
      fun _ => rfl⟩
  · exact ⟨fun hf => (by rw [matchesField_excl hm (g := "title") (by decide)] at hf; cases hf),
      fun _ => rfl⟩
  · exact ⟨fun hf => (by rw [matchesField_excl hm (g := "title") (by decide)] at hf; cases hf),
      fun _ => rfl⟩
  · exact ⟨fun hf => (by rw [matchesField_excl hm (g := "title") (by decide)] at hf; cases hf),
      fun _ => rfl⟩
  · exact ⟨fun hf => (by rw [matchesField_excl hm (g := "title") (by decide)] at hf; cases hf),
      fun _ => rfl⟩
  · exact ⟨fun hf => (by rw [matchesField_excl hm (g := "title") (by decide)] at hf; cases hf),
      fun _ => rfl⟩
  · exact ⟨fun hf => (by rw [hn.2.1] at hf; cases hf), fun _ => rfl⟩

theorem prNodeField_frame_Permalink (kind : QueryKind) :
    FieldFrame (prNodeField kind) "permalink" (fun n => n.Permalink) decodeString := by
  intro k v cur r h
  rcases prNodeField_cases kind k v cur r h with
    ⟨_, hm, b, _, rfl⟩ | ⟨hm, b, hb, rfl⟩ | ⟨hm, b, hb, rfl⟩ | ⟨hm, b, hb, rfl⟩ | ⟨hm, b, hb, rfl⟩ | ⟨hm, b, hb, rfl⟩ | ⟨hm, b, hb, rfl⟩ | ⟨hm, b, hb, rfl⟩ | ⟨hm, b, hb, rfl⟩ | ⟨hm, b, _, rfl⟩ | ⟨hm, b, _, rfl⟩ | ⟨hm, b, _, rfl⟩ | ⟨hn, rfl⟩
  · exact ⟨fun hf => (by rw [matchesField_excl hm (g := "permalink") (by decide)] at hf; cases hf),
      fun _ => rfl⟩
  · exact ⟨fun hf => (by rw [matchesField_excl hm (g := "permalink") (by decide)] at hf; cases hf),
      fun _ => rfl⟩
  · exact ⟨fun hf => (by rw [matchesField_excl hm (g := "permalink") (by decide)] at hf; cases hf),
      fun _ => rfl⟩
  · exact ⟨fun _ => hb, fun hf => (by rw [hm] at hf; cases hf)⟩
  · exact ⟨fun hf => (by rw [matchesField_excl hm (g := "permalink") (by decide)] at hf; cases hf),
      fun _ => rfl⟩
  · exact ⟨fun hf => (by rw [matchesField_excl hm (g := "permalink") (by decide)] at hf; cases hf),
      fun _ => rfl⟩
  · exact ⟨fun hf => (by rw [matchesField_excl hm (g := "permalink") (by decide)] at hf; cases hf),
      fun _ => rfl⟩
  · exact ⟨fun hf => (by rw [matchesField_excl hm (g := "permalink") (by decide)] at hf; cases hf),
      fun _ => rfl⟩
  · exact ⟨fun hf => (by rw [matchesField_excl hm (g := "permalink") (by decide)] at hf; cases hf),
      fun _ => rfl⟩
  · exact ⟨fun hf => (by rw [matchesField_excl hm (g := "permalink") (by decide)] at hf; cases hf),
      fun _ => rfl⟩
  · exact ⟨fun hf => (by rw [matchesField_excl hm (g := "permalink") (by decide)] at hf; cases hf),
      fun _ => rfl⟩
  · exact ⟨fun hf => (by rw [matchesField_excl hm (g := "permalink") (by decide)] at hf; cases hf),
      fun _ => rfl⟩
  · exact ⟨fun hf => (by rw [hn.2.2.1] at hf; cases hf), fun _ => rfl⟩

theorem prNodeField_frame_UpdatedAt (kind : QueryKind) :
    FieldFrame (prNodeField kind) "updatedAt" (fun n => n.UpdatedAt) decodeString := by
  intro k v cur r h
  rcases prNodeField_cases kind k v cur r h with
    ⟨_, hm, b, _, rfl⟩ | ⟨hm, b, hb, rfl⟩ | ⟨hm, b, hb, rfl⟩ | ⟨hm, b, hb, rfl⟩ | ⟨hm, b, hb, rfl⟩ | ⟨hm, b, hb, rfl⟩ | ⟨hm, b, hb, rfl⟩ | ⟨hm, b, hb, rfl⟩ | ⟨hm, b, hb, rfl⟩ | ⟨hm, b, _, rfl⟩ | ⟨hm, b, _, rfl⟩ | ⟨hm, b, _, rfl⟩ | ⟨hn, rfl⟩
  · exact ⟨fun hf => (by rw [matchesField_excl hm (g := "updatedAt") (by decide)] at hf; cases hf),
      fun _ => rfl⟩
  · exact ⟨fun hf => (by rw [matchesField_excl hm (g := "updatedAt") (by decide)] at hf; cases hf),
      fun _ => rfl⟩
  · exact ⟨fun hf => (by rw [matchesField_excl hm (g := "updatedAt") (by decide)] at hf; cases hf),
      fun _ => rfl⟩
  · exact ⟨fun hf => (by rw [matchesField_excl hm (g := "updatedAt") (by decide)] at hf; cases hf),
      fun _ => rfl⟩
  · exact ⟨fun _ => hb, fun hf => (by rw [hm] at hf; cases hf)⟩
  · exact ⟨fun hf => (by rw [matchesField_excl hm (g := "updatedAt") (by decide)] at hf; cases hf),
      fun _ => rfl⟩
  · exact ⟨fun hf => (by rw [matchesField_excl hm (g := "updatedAt") (by decide)] at hf; cases hf),
      fun _ => rfl⟩
  · exact ⟨fun hf => (by rw [matchesField_excl hm (g := "updatedAt") (by decide)] at hf; cases hf),
      fun _ => rfl⟩
  · exact ⟨fun hf => (by rw [matchesField_excl hm (g := "updatedAt") (by decide)] at hf; cases hf),
      fun _ => rfl⟩
  · exact ⟨fun hf => (by rw [matchesField_excl hm (g := "updatedAt") (by decide)] at hf; cases hf),
      fun _ => rfl⟩
  · exact ⟨fun hf => (by rw [matchesField_excl hm (g := "updatedAt") (by decide)] at hf; cases hf),
      fun _ => rfl⟩
  · exact ⟨fun hf => (by rw [matchesField_excl hm (g := "updatedAt") (by decide)] at hf; cases hf),
      fun _ => rfl⟩
  · exact ⟨fun hf => (by rw [hn.2.2.2.1] at hf; cases hf), fun _ => rfl⟩

theorem prNodeField_frame_State (kind : QueryKind) :
    FieldFrame (prNodeField kind) "state" (fun n => n.State) decodeString := by
  intro k v cur r h
  rcases prNodeField_cases kind k v cur r h with
    ⟨_, hm, b, _, rfl⟩ | ⟨hm, b, hb, rfl⟩ | ⟨hm, b, hb, rfl⟩ | ⟨hm, b, hb, rfl⟩ | ⟨hm, b, hb, rfl⟩ | ⟨hm, b, hb, rfl⟩ | ⟨hm, b, hb, rfl⟩ | ⟨hm, b, hb, rfl⟩ | ⟨hm, b, hb, rfl⟩ | ⟨hm, b, _, rfl⟩ | ⟨hm, b, _, rfl⟩ | ⟨hm, b, _, rfl⟩ | ⟨hn, rfl⟩
  · exact ⟨fun hf => (by rw [matchesField_excl hm (g := "state") (by decide)] at hf; cases hf),
      fun _ => rfl⟩
  · exact ⟨fun hf => (by rw [matchesField_excl hm (g := "state") (by decide)] at hf; cases hf),
      fun _ => rfl⟩
  · exact ⟨fun hf => (by rw [matchesField_excl hm (g := "state") (by decide)] at hf; cases hf),
      fun _ => rfl⟩
  · exact ⟨fun hf => (by rw [matchesField_excl hm (g := "state") (by decide)] at hf; cases hf),
      fun _ => rfl⟩
  · exact ⟨fun hf => (by rw [matchesField_excl hm (g := "state") (by decide)] at hf; cases hf),
      fun _ => rfl⟩
  · exact ⟨fun _ => hb, fun hf => (by rw [hm] at hf; cases hf)⟩
  · exact ⟨fun hf => (by rw [matchesField_excl hm (g := "state") (by decide)] at hf; cases hf),
      fun _ => rfl⟩
  · exact ⟨fun hf => (by rw [matchesField_excl hm (g := "state") (by decide)] at hf; cases hf),
      fun _ => rfl⟩
  · exact ⟨fun hf => (by rw [matchesField_excl hm (g := "state") (by decide)] at hf; cases hf),
      fun _ => rfl⟩
  · exact ⟨fun hf => (by rw [matchesField_excl hm (g := "state") (by decide)] at hf; cases hf),
      fun _ => rfl⟩
  · exact ⟨fun hf => (by rw [matchesField_excl hm (g := "state") (by decide)] at hf; cases hf),
      fun _ => rfl⟩
  · exact ⟨fun hf => (by rw [matchesField_excl hm (g := "state") (by decide)] at hf; cases hf),
      fun _ => rfl⟩
  · exact ⟨fun hf => (by rw [hn.2.2.2.2.1] at hf; cases hf), fun _ => rfl⟩

theorem prNodeField_frame_Additions (kind : QueryKind) :
    FieldFrame (prNodeField kind) "additions" (fun n => n.Additions) decodeInt := by
  intro k v cur r h
  rcases prNodeField_cases kind k v cur r h with
    ⟨_, hm, b, _, rfl⟩ | ⟨hm, b, hb, rfl⟩ | ⟨hm, b, hb, rfl⟩ | ⟨hm, b, hb, rfl⟩ | ⟨hm, b, hb, rfl⟩ | ⟨hm, b, hb, rfl⟩ | ⟨hm, b, hb, rfl⟩ | ⟨hm, b, hb, rfl⟩ | ⟨hm, b, hb, rfl⟩ | ⟨hm, b, _, rfl⟩ | ⟨hm, b, _, rfl⟩ | ⟨hm, b, _, rfl⟩ | ⟨hn, rfl⟩
  · exact ⟨fun hf => (by rw [matchesField_excl hm (g := "additions") (by decide)] at hf; cases hf),
      fun _ => rfl⟩
  · exact ⟨fun hf => (by rw [matchesField_excl hm (g := "additions") (by decide)] at hf; cases hf),
      fun _ => rfl⟩
  · exact ⟨fun hf => (by rw [matchesField_excl hm (g := "additions") (by decide)] at hf; cases hf),
      fun _ => rfl⟩
  · exact ⟨fun hf => (by rw [matchesField_excl hm (g := "additions") (by decide)] at hf; cases hf),
      fun _ => rfl⟩
  · exact ⟨fun hf => (by rw [matchesField_excl hm (g := "additions") (by decide)] at hf; cases hf),
      fun _ => rfl⟩
  · exact ⟨fun hf => (by rw [matchesField_excl hm (g := "additions") (by decide)] at hf; cases hf),
      fun _ => rfl⟩
  · exact ⟨fun _ => hb, fun hf => (by rw [hm] at hf; cases hf)⟩
  · exact ⟨fun hf => (by rw [matchesField_excl hm (g := "additions") (by decide)] at hf; cases hf),
      fun _ => rfl⟩
  · exact ⟨fun hf => (by rw [matchesField_excl hm (g := "additions") (by decide)] at hf; cases hf),
      fun _ => rfl⟩
  · exact ⟨fun hf => (by rw [matchesField_excl hm (g := "additions") (by decide)] at hf; cases hf),
      fun _ => rfl⟩
  · exact ⟨fun hf => (by rw [matchesField_excl hm (g := "additions") (by decide)] at hf; cases hf),
      fun _ => rfl⟩
  · exact ⟨fun hf => (by rw [matchesField_excl hm (g := "additions") (by decide)] at hf; cases hf),
      fun _ => rfl⟩
  · exact ⟨fun hf => (by rw [hn.2.2.2.2.2.1] at hf; cases hf), fun _ => rfl⟩

theorem prNodeField_frame_Deletions (kind : QueryKind) :
    FieldFrame (prNodeField kind) "deletions" (fun n => n.Deletions) decodeInt := by
  intro k v cur r h
  rcases prNodeField_cases kind k v cur r h with
    ⟨_, hm, b, _, rfl⟩ | ⟨hm, b, hb, rfl⟩ | ⟨hm, b, hb, rfl⟩ | ⟨hm, b, hb, rfl⟩ | ⟨hm, b, hb, rfl⟩ | ⟨hm, b, hb, rfl⟩ | ⟨hm, b, hb, rfl⟩ | ⟨hm, b, hb, rfl⟩ | ⟨hm, b, hb, rfl⟩ | ⟨hm, b, _, rfl⟩ | ⟨hm, b, _, rfl⟩ | ⟨hm, b, _, rfl⟩ | ⟨hn, rfl⟩
  · exact ⟨fun hf => (by rw [matchesField_excl hm (g := "deletions") (by decide)] at hf; cases hf),
      fun _ => rfl⟩
  · exact ⟨fun hf => (by rw [matchesField_excl hm (g := "deletions") (by decide)] at hf; cases hf),
      fun _ => rfl⟩
  · exact ⟨fun hf => (by rw [matchesField_excl hm (g := "deletions") (by decide)] at hf; cases hf),
      fun _ => rfl⟩
  · exact ⟨fun hf => (by rw [matchesField_excl hm (g := "deletions") (by decide)] at hf; cases hf),
      fun _ => rfl⟩
  · exact ⟨fun hf => (by rw [matchesField_excl hm (g := "deletions") (by decide)] at hf; cases hf),
      fun _ => rfl⟩
  · exact ⟨fun hf => (by rw [matchesField_excl hm (g := "deletions") (by decide)] at hf; cases hf),
      fun _ => rfl⟩
  · exact ⟨fun hf => (by rw [matchesField_excl hm (g := "deletions") (by decide)] at hf; cases hf),
      fun _ => rfl⟩
  · exact ⟨fun _ => hb, fun hf => (by rw [hm] at hf; cases hf)⟩
  · exact ⟨fun hf => (by rw [matchesField_excl hm (g := "deletions") (by decide)] at hf; cases hf),
      fun _ => rfl⟩
  · exact ⟨fun hf => (by rw [matchesField_excl hm (g := "deletions") (by decide)] at hf; cases hf),
      fun _ => rfl⟩
  · exact ⟨fun hf => (by rw [matchesField_excl hm (g := "deletions") (by decide)] at hf; cases hf),
      fun _ => rfl⟩
  · exact ⟨fun hf => (by rw [matchesField_excl hm (g := "deletions") (by decide)] at hf; cases hf),
      fun _ => rfl⟩
  · exact ⟨fun hf => (by rw [hn.2.2.2.2.2.2.1] at hf; cases hf), fun _ => rfl⟩

theorem prNodeField_frame_ChangedFiles (kind : QueryKind) :
    FieldFrame (prNodeField kind) "changedFiles" (fun n => n.ChangedFiles) decodeInt := by
  intro k v cur r h
  rcases prNodeField_cases kind k v cur r h with
    ⟨_, hm, b, _, rfl⟩ | ⟨hm, b, hb, rfl⟩ | ⟨hm, b, hb, rfl⟩ | ⟨hm, b, hb, rfl⟩ | ⟨hm, b, hb, rfl⟩ | ⟨hm, b, hb, rfl⟩ | ⟨hm, b, hb, rfl⟩ | ⟨hm, b, hb, rfl⟩ | ⟨hm, b, hb, rfl⟩ | ⟨hm, b, _, rfl⟩ | ⟨hm, b, _, rfl⟩ | ⟨hm, b, _, rfl⟩ | ⟨hn, rfl⟩
  · exact ⟨fun hf => (by rw [matchesField_excl hm (g := "changedFiles") (by decide)] at hf; cases hf),
      fun _ => rfl⟩
  · exact ⟨fun hf => (by rw [matchesField_excl hm (g := "changedFiles") (by decide)] at hf; cases hf),
      fun _ => rfl⟩
  · exact ⟨fun hf => (by rw [matchesField_excl hm (g := "changedFiles") (by decide)] at hf; cases hf),
      fun _ => rfl⟩
  · exact ⟨fun hf => (by rw [matchesField_excl hm (g := "changedFiles") (by decide)] at hf; cases hf),
      fun _ => rfl⟩
  · exact ⟨fun hf => (by rw [matchesField_excl hm (g := "changedFiles") (by decide)] at hf; cases hf),
      fun _ => rfl⟩
  · exact ⟨fun hf => (by rw [matchesField_excl hm (g := "changedFiles") (by decide)] at hf; cases hf),
      fun _ => rfl⟩
  · exact ⟨fun hf => (by rw [matchesField_excl hm (g := "changedFiles") (by decide)] at hf; cases hf),
      fun _ => rfl⟩
  · exact ⟨fun hf => (by rw [matchesField_excl hm (g := "changedFiles") (by decide)] at hf; cases hf),
      fun _ => rfl⟩
  · exact ⟨fun _ => hb, fun hf => (by rw [hm] at hf; cases hf)⟩
  · exact ⟨fun hf => (by rw [matchesField_excl hm (g := "changedFiles") (by decide)] at hf; cases hf),
      fun _ => rfl⟩
  · exact ⟨fun hf => (by rw [matchesField_excl hm (g := "changedFiles") (by decide)] at hf; cases hf),
      fun _ => rfl⟩
  · exact ⟨fun hf => (by rw [matchesField_excl hm (g := "changedFiles") (by decide)] at hf; cases hf),
      fun _ => rfl⟩
  · exact ⟨fun hf => (by rw [hn.2.2.2.2.2.2.2] at hf; cases hf), fun _ => rfl⟩

theorem repoQueryField_frame :
    FieldFrame repoQueryField "data" (fun q => q.Data) decodeRepoQueryData := by
  intro k v cur r h
  unfold repoQueryField at h
  by_cases c : matchesField "data" k = true
  · rw [if_pos c] at h
    obtain ⟨b, hb, rfl⟩ := map_ok_inv_eq h
    exact ⟨fun _ => hb, fun hf => (by rw [c] at hf; cases hf)⟩
  · rw [if_neg c] at h
    cases h
    exact ⟨fun hf => absurd hf c, fun _ => rfl⟩

theorem userQueryField_frame :
    FieldFrame userQueryField "data" (fun q => q.Data) decodeUserQueryData := by
  intro k v cur r h
  unfold userQueryField at h
  by_cases c : matchesField "data" k = true
  · rw [if_pos c] at h
    obtain ⟨b, hb, rfl⟩ := map_ok_inv_eq h
    exact ⟨fun _ => hb, fun hf => (by rw [c] at hf; cases hf)⟩
  · rw [if_neg c] at h
    cases h
    exact ⟨fun hf => absurd hf c, fun _ => rfl⟩

theorem repoQueryDataField_frame :
    FieldFrame repoQueryDataField "repo" (fun d => d.Repo) decodeRepoData := by
  intro k v cur r h
  unfold repoQueryDataField at h
  by_cases c : matchesField "repo" k = true
  · rw [if_pos c] at h
    obtain ⟨b, hb, rfl⟩ := map_ok_inv_eq h
    exact ⟨fun _ => hb, fun hf => (by rw [c] at hf; cases hf)⟩
  · rw [if_neg c] at h
    cases h
    exact ⟨fun hf => absurd hf c, fun _ => rfl⟩

theorem userQueryDataField_frame :
    FieldFrame userQueryDataField "user" (fun d => d.User) decodeUserData := by
  intro k v cur r h
  unfold userQueryDataField at h
  by_cases c : matchesField "user" k = true
  · rw [if_pos c] at h
    obtain ⟨b, hb, rfl⟩ := map_ok_inv_eq h
    exact ⟨fun _ => hb, fun hf => (by rw [c] at hf; cases hf)⟩
  · rw [if_neg c] at h
    cases h
    exact ⟨fun hf => absurd hf c, fun _ => rfl⟩

theorem repoDataField_frame :
    FieldFrame repoDataField "pullRequests" (fun d => d.PullRequests) (decodePRConn .repo) := by
  intro k v cur r h
  unfold repoDataField at h
  by_cases c1 : matchesField "name" k = true
  · rw [if_pos c1] at h
    obtain ⟨b, _, rfl⟩ := map_ok_inv_eq h
    exact ⟨fun hf => (by rw [matchesField_excl c1 (g := "pullRequests") (by decide)] at hf; cases hf),
      fun _ => rfl⟩
  rw [if_neg c1] at h
  by_cases c : matchesField "pullRequests" k = true
  · rw [if_pos c] at h
    obtain ⟨b, hb, rfl⟩ := map_ok_inv_eq h
    exact ⟨fun _ => hb, fun hf => (by rw [c] at hf; cases hf)⟩
  · rw [if_neg c] at h
    cases h
    exact ⟨fun hf => absurd hf c, fun _ => rfl⟩

theorem userDataField_frame :
    FieldFrame userDataField "pullRequests" (fun d => d.PullRequests) (decodePRConn .user) := by
  intro k v cur r h
  unfold userDataField at h
  by_cases c1 : matchesField "login" k = true
  · rw [if_pos c1] at h
    obtain ⟨b, _, rfl⟩ := map_ok_inv_eq h
    exact ⟨fun hf => (by rw [matchesField_excl c1 (g := "pullRequests") (by decide)] at hf; cases hf),
      fun _ => rfl⟩
  rw [if_neg c1] at h
  by_cases c : matchesField "pullRequests" k = true
  · rw [if_pos c] at h
    obtain ⟨b, hb, rfl⟩ := map_ok_inv_eq h
    exact ⟨fun _ => hb, fun hf => (by rw [c] at hf; cases hf)⟩
  · rw [if_neg c] at h
    cases h
    exact ⟨fun hf => absurd hf c, fun _ => rfl⟩

theorem prConnField_frame (kind : QueryKind) :
    FieldFrame (prConnField kind) "nodes" (fun c => c.Nodes)
      (decodeSlice (decodePRNode kind) PRNode.zero) := by
  intro k v cur r h
  unfold prConnField at h
  by_cases c : matchesField "nodes" k = true
  · rw [if_pos c] at h
    obtain ⟨b, hb, rfl⟩ := map_ok_inv_eq h
    exact ⟨fun _ => hb, fun hf => (by rw [c] at hf; cases hf)⟩
  · rw [if_neg c] at h
    cases h
    exact ⟨fun hf => absurd hf c, fun _ => rfl⟩

theorem decodeElems_fresh_inv {α : Type} (elem : Json → α → Except JsonError α) (zero : α)
    (items : List Json) :
    ∀ decoded, decodeElems elem zero items [] = .ok decoded →
      List.Forall₂ (fun v x => elem v zero = .ok x) items decoded := by
  induction items with
  | nil =>
    intro decoded h
    simp only [decodeElems, Except.ok.injEq] at h
    subst h
    exact List.Forall₂.nil
  | cons v vs ih =>
    intro decoded h
    simp only [decodeElems, List.headD_nil, List.tail_nil] at h
    cases hx : elem v zero with
    | error e => simp [hx] at h
    | ok x =>
      simp only [hx] at h
      cases hxs : decodeElems elem zero vs [] with
      | error e => simp [hxs] at h
      | ok xs =>
        simp only [hxs, Except.ok.injEq] at h
        subst h
        exact List.Forall₂.cons hx (ih xs hxs)

theorem decodeSlice_fresh_inv {α : Type} (elem : Json → α → Except JsonError α) (zero : α)
    (items : List Json) (s : GoSlice α)
    (h : decodeSlice elem zero (.arr items) GoSlice.nil = .ok s) :
    List.Forall₂ (fun v x => elem v zero = .ok x) items s.elems := by
  cases items with
  | nil =>
    simp only [decodeSlice, Except.ok.injEq] at h
    subst h
    exact List.Forall₂.nil
  | cons v vs =>
    simp only [decodeSlice, GoSlice.nil, List.append_nil] at h
    cases hxs : decodeElems elem zero (v :: vs) [] with
    | error e => simp [hxs] at h
    | ok xs =>
      simp only [hxs, Except.ok.injEq] at h
      subst h
      exact decodeElems_fresh_inv elem zero (v :: vs) xs hxs

/-- The nodes of a decoded answer to the repository query are the nodes of the answer,
each decoded into a fresh struct. -/
theorem repo_nodes_decoded (doc : Json) (nodes : List Json) (repos : RepoQuery)
    (hn : responseNodes "repo" doc = some nodes)
    (hd : unmarshalRepoQuery (.json doc) = .ok repos) :
    List.Forall₂ (fun v x => decodePRNode .repo v PRNode.zero = .ok x) nodes
      repos.Data.Repo.PullRequests.Nodes.elems := by
  cases doc with
  | obj top =>
    simp only [responseNodes] at hn
    cases h1 : onlyMember "data" top with
    | none => simp [h1] at hn
    | some v1 =>
      cases v1 with
      | obj data =>
        simp only [h1] at hn
        cases h2 : onlyMember "repo" data with
        | none => simp [h2] at hn
        | some v2 =>
          cases v2 with
          | obj inner =>
            simp only [h2] at hn
            cases h3 : onlyMember "pullRequests" inner with
            | none => simp [h3] at hn
            | some v3 =>
              cases v3 with
              | obj connection =>
                simp only [h3] at hn
                cases h4 : onlyMember "nodes" connection with
                | none => simp [h4] at hn
                | some v4 =>
                  cases v4 with
                  | arr items =>
                    simp only [h4, Option.some.injEq] at hn
                    subst hn
                    simp only [unmarshalRepoQuery, decodeStruct] at hd
                    have d1 := decodeMembers_onlyMember repoQueryField "data" _ _
                      repoQueryField_frame top _ _ _ h1 hd
                    simp only [decodeRepoQueryData, decodeStruct] at d1
                    have d2 := decodeMembers_onlyMember repoQueryDataField "repo" _ _
                      repoQueryDataField_frame data _ _ _ h2 d1
                    simp only [decodeRepoData, decodeStruct] at d2
                    have d3 := decodeMembers_onlyMember repoDataField "pullRequests" _ _
                      repoDataField_frame inner _ _ _ h3 d2
                    simp only [decodePRConn, decodeStruct] at d3
                    have d4 := decodeMembers_onlyMember (prConnField .repo) "nodes" _ _
                      (prConnField_frame .repo) connection _ _ _ h4 d3
                    exact decodeSlice_fresh_inv _ _ _ _ d4
                  | _ => simp [h4] at hn
              | _ => simp [h3] at hn
          | _ => simp [h2] at hn
      | _ => simp [h1] at hn
  | _ => simp [responseNodes] at hn

/-- The nodes of a decoded answer to the user query are the nodes of the answer, each
decoded into a fresh struct. -/
theorem user_nodes_decoded (doc : Json) (nodes : List Json) (repos : UserQuery)
    (hn : responseNodes "user" doc = some nodes)
    (hd : unmarshalUserQuery (.json doc) = .ok repos) :
    List.Forall₂ (fun v x => decodePRNode .user v PRNode.zero = .ok x) nodes
      repos.Data.User.PullRequests.Nodes.elems := by
  cases doc with
  | obj top =>
    simp only [responseNodes] at hn
    cases h1 : onlyMember "data" top with
    | none => simp [h1] at hn
    | some v1 =>
      cases v1 with
      | obj data =>
        simp only [h1] at hn
        cases h2 : onlyMember "user" data with
        | none => simp [h2] at hn
        | some v2 =>
          cases v2 with
          | obj inner =>
            simp only [h2] at hn
            cases h3 : onlyMember "pullRequests" inner with
            | none => simp [h3] at hn
            | some v3 =>
              cases v3 with
              | obj connection =>
                simp only [h3] at hn
                cases h4 : onlyMember "nodes" connection with
                | none => simp [h4] at hn
                | some v4 =>
                  cases v4 with
                  | arr items =>
                    simp only [h4, Option.some.injEq] at hn
                    subst hn
                    simp only [unmarshalUserQuery, decodeStruct] at hd
                    have d1 := decodeMembers_onlyMember userQueryField "data" _ _
                      userQueryField_frame top _ _ _ h1 hd
                    simp only [decodeUserQueryData, decodeStruct] at d1
                    have d2 := decodeMembers_onlyMember userQueryDataField "user" _ _
                      userQueryDataField_frame data _ _ _ h2 d1
                    simp only [decodeUserData, decodeStruct] at d2
                    have d3 := decodeMembers_onlyMember userDataField "pullRequests" _ _
                      userDataField_frame inner _ _ _ h3 d2
                    simp only [decodePRConn, decodeStruct] at d3
                    have d4 := decodeMembers_onlyMember (prConnField .user) "nodes" _ _
                      (prConnField_frame .user) connection _ _ _ h4 d3
                    exact decodeSlice_fresh_inv _ _ _ _ d4
                  | _ => simp [h4] at hn
              | _ => simp [h3] at hn
          | _ => simp [h2] at hn
      | _ => simp [h1] at hn
  | _ => simp [responseNodes] at hn

theorem fitsReviewConn_of_noReviews (v : Json) (h : noReviews v = true) :
    fitsStruct fitsReviewConnMember v = true := by
  cases v with
  | null => rfl
  | obj members =>
    simp only [noReviews, List.all_eq_true] at h
    simp only [fitsStruct, List.all_eq_true]
    intro kv hkv
    have hk := h kv hkv
    unfold fitsReviewConnMember
    by_cases c : matchesField "nodes" kv.1 = true
    · rw [if_pos c]
      simp only [c, Bool.not_true, Bool.false_or] at hk
      cases hv : kv.2 with
      | null => rfl
      | arr items =>
        rw [hv] at hk
        cases items with
        | nil => rfl
        | cons x xs => simp at hk
      | _ => rw [hv] at hk; simp at hk
    · rw [if_neg c]
  | _ => simp [noReviews] at h

/-- A member that leaves a node without author, review decision and reviews fits the
node as soon as it fits its repository and scalar fields. -/
theorem fitsPRNodeMember_of_bare (kind : QueryKind) (k : String) (v : Json)
    (hb : bareMember k v = true) (hs : fitsScalarMember kind k v = true) :
    fitsPRNodeMember kind k v = true := by
  simp only [bareMember, Bool.and_eq_true, Bool.or_eq_true, Bool.not_eq_true'] at hb
  obtain ⟨⟨hb1, hb2⟩, hb3⟩ := hb
  unfold fitsScalarMember at hs
  unfold fitsPRNodeMember
  by_cases c0 : kind = .user ∧ matchesField "repository" k = true
  · rw [if_pos c0] at hs ⊢
    exact hs
  rw [if_neg c0] at hs ⊢
  by_cases c1 : matchesField "number" k = true
  · rw [if_pos c1] at hs ⊢
    exact hs
  rw [if_neg c1] at hs ⊢
  by_cases c2 : matchesField "title" k = true
  · rw [if_pos c2] at hs ⊢
    exact hs
  rw [if_neg c2] at hs ⊢
  by_cases c3 : matchesField "permalink" k = true
  · rw [if_pos c3] at hs ⊢
    exact hs
  rw [if_neg c3] at hs ⊢
  by_cases c4 : matchesField "updatedAt" k = true
  · rw [if_pos c4] at hs ⊢
    exact hs
  rw [if_neg c4] at hs ⊢
  by_cases c5 : matchesField "state" k = true
  · rw [if_pos c5] at hs ⊢
    exact hs
  rw [if_neg c5] at hs ⊢
  by_cases c6 : matchesField "additions" k = true
  · rw [if_pos c6] at hs ⊢
    exact hs
  rw [if_neg c6] at hs ⊢
  by_cases c7 : matchesField "deletions" k = true
  · rw [if_pos c7] at hs ⊢
    exact hs
  rw [if_neg c7] at hs ⊢
  by_cases c8 : matchesField "changedFiles" k = true
  · rw [if_pos c8] at hs ⊢
    exact hs
  rw [if_neg c8] at hs ⊢
  by_cases c9 : matchesField "PrAuthor" k = true
  · rw [if_pos c9, isNull_eq (hb1.resolve_left (by rw [c9]; decide))]
    rfl
  rw [if_neg c9]
  by_cases c10 : matchesField "reviewDecision" k = true
  · rw [if_pos c10, isNull_eq (hb2.resolve_left (by rw [c10]; decide))]
    rfl
  rw [if_neg c10]
  by_cases c11 : matchesField "reviews" k = true
  · rw [if_pos c11]
    exact fitsReviewConn_of_noReviews v (hb3.resolve_left (by rw [c11]; decide))
  rw [if_neg c11]

/-- A node object without author, review decision and reviews decodes as soon as its
repository and scalar members are well typed. -/
theorem bare_node_decodes (kind : QueryKind) (ms : List (String × Json)) (cur : PRNode)
    (hb : bareNode ms = true) (hs : ∀ kv ∈ ms, fitsScalarMember kind kv.1 kv.2 = true) :
    ∃ x, decodePRNode kind (.obj ms) cur = .ok x := by
  apply decodePRNode_ok
  simp only [fitsStruct, List.all_eq_true]
  simp only [bareNode, List.all_eq_true] at hb
  exact fun kv hkv => fitsPRNodeMember_of_bare kind kv.1 kv.2 (hb kv hkv) (hs kv hkv)

theorem intOf_of_isNull (v : Json) (cur : Int) (h0 : cur = 0) :
    (if isNull v = true then cur else intOf v) = intOf v := by
  cases v <;> simp [isNull, intOf, h0]

theorem strOf_of_isNull (v : Json) (cur : String) (h0 : cur = "") :
    (if isNull v = true then cur else strOf v) = strOf v := by
  cases v <;> simp [isNull, strOf, h0]

/-- A node object without author, review decision and reviews decodes, if it does, to a
node struct with the three fields zero and the scalar fields as its members give them. -/
theorem bare_node_decoded (kind : QueryKind) (ms : List (String × Json)) (x : PRNode)
    (hb : bareNode ms = true) (hd : decodePRNode kind (.obj ms) PRNode.zero = .ok x) :
    x.PrAuthor = UserRef.zero ∧ x.ReviewDecision = "" ∧ x.Reviews = ReviewConn.zero ∧
    x.Number = intOf (lastValue "number" ms) ∧
    x.Title = strOf (lastValue "title" ms) ∧
    x.Permalink = strOf (lastValue "permalink" ms) ∧
    x.UpdatedAt = strOf (lastValue "updatedAt" ms) ∧
    x.State = strOf (lastValue "state" ms) ∧
    x.Additions = intOf (lastValue "additions" ms) ∧
    x.Deletions = intOf (lastValue "deletions" ms) ∧
    x.ChangedFiles = intOf (lastValue "changedFiles" ms) := by
  simp only [decodePRNode, decodeStruct] at hd
  obtain ⟨z1, z2, z3⟩ := decodeMembers_bare kind ms PRNode.zero x hb ⟨rfl, rfl, rfl⟩ hd
  refine ⟨z1, z2, z3, ?_, ?_, ?_, ?_, ?_, ?_, ?_, ?_⟩
  · rw [decodeMembers_lastInt _ "number" _ (prNodeField_frame_Number kind) ms _ _ hd]
    exact intOf_of_isNull _ _ rfl
  · rw [decodeMembers_lastString _ "title" _ (prNodeField_frame_Title kind) ms _ _ hd]
    exact strOf_of_isNull _ _ rfl
  · rw [decodeMembers_lastString _ "permalink" _ (prNodeField_frame_Permalink kind) ms _ _ hd]
    exact strOf_of_isNull _ _ rfl
  · rw [decodeMembers_lastString _ "updatedAt" _ (prNodeField_frame_UpdatedAt kind) ms _ _ hd]
    exact strOf_of_isNull _ _ rfl
  · rw [decodeMembers_lastString _ "state" _ (prNodeField_frame_State kind) ms _ _ hd]
    exact strOf_of_isNull _ _ rfl
  · rw [decodeMembers_lastInt _ "additions" _ (prNodeField_frame_Additions kind) ms _ _ hd]
    exact intOf_of_isNull _ _ rfl
  · rw [decodeMembers_lastInt _ "deletions" _ (prNodeField_frame_Deletions kind) ms _ _ hd]
    exact intOf_of_isNull _ _ rfl
  · rw [decodeMembers_lastInt _ "changedFiles" _ (prNodeField_frame_ChangedFiles kind) ms _ _ hd]
    exact intOf_of_isNull _ _ rfl

/-- C6: a node without author, reviews and review decision does not make the mapper
fail, and is mapped to a record without them. For every well-typed answer (`fitsRepoQuery`,
`fitsUserQuery`: every member stored into a field has a value of the field's JSON type or
is `null`; nothing is asked of absent members) both mappers succeed. And for every node
object of the answer that is without the three (`bareNode`: the `PrAuthor` and
`reviewDecision` members are absent or `null`, the `reviews` member is absent, `null` or
without review nodes), whatever the other nodes are, the record at the node's position
has empty `AuthorUserName`, empty `ReviewDecision` and no `Reviews`, and its number,
title, permalink, update time, state, additions, deletions and changed files are the
values of the node's members of those names. Being without the three asks nothing more
of a node: such a node is well typed, and decodes, as soon as its repository and scalar
members are well typed. -/
theorem bare_nodes_are_mapped (net : Net) (githubToken : String) (w : World) :
    (∀ (ownerName repoName : String) (doc : Json),
      net.respond w.sent.length (repoRequest ownerName repoName githubToken) =
        some (.json doc) →
      fitsRepoQuery doc = true →
      ∃ prs w1, getRepoPullRequests net ownerName repoName githubToken w = .ret (.ok prs) w1 ∧
        ∀ nodes, responseNodes "repo" doc = some nodes →
          prs.length = nodes.length ∧
          ∀ i (hp : i < prs.length) (hn : i < nodes.length) (ms : List (String × Json)),
            nodes[i] = .obj ms → bareNode ms = true →
            prs[i].AuthorUserName = "" ∧ prs[i].ReviewDecision = "" ∧ prs[i].Reviews = [] ∧
            prs[i].Number = intOf (lastValue "number" ms) ∧
            prs[i].Title = strOf (lastValue "title" ms) ∧
            prs[i].Permalink = strOf (lastValue "permalink" ms) ∧
            prs[i].UpdatedAt = strOf (lastValue "updatedAt" ms) ∧
            prs[i].State = strOf (lastValue "state" ms) ∧
            prs[i].Additions = intOf (lastValue "additions" ms) ∧
            prs[i].Deletions = intOf (lastValue "deletions" ms) ∧
            prs[i].ChangedFiles = intOf (lastValue "changedFiles" ms)) ∧
    (∀ (userName : String) (doc : Json),
      net.respond w.sent.length (userRequest userName githubToken) = some (.json doc) →
      fitsUserQuery doc = true →
      ∃ prs w1, getPullRequestsForUser net userName githubToken w = .ret (.ok prs) w1 ∧
        ∀ nodes, responseNodes "user" doc = some nodes →
          prs.length = nodes.length ∧
          ∀ i (hp : i < prs.length) (hn : i < nodes.length) (ms : List (String × Json)),
            nodes[i] = .obj ms → bareNode ms = true →
            prs[i].AuthorUserName = "" ∧ prs[i].ReviewDecision = "" ∧ prs[i].Reviews = [] ∧
            prs[i].Number = intOf (lastValue "number" ms) ∧
            prs[i].Title = strOf (lastValue "title" ms) ∧
            prs[i].Permalink = strOf (lastValue "permalink" ms) ∧
            prs[i].UpdatedAt = strOf (lastValue "updatedAt" ms) ∧
            prs[i].State = strOf (lastValue "state" ms) ∧
            prs[i].Additions = intOf (lastValue "additions" ms) ∧
            prs[i].Deletions = intOf (lastValue "deletions" ms) ∧
            prs[i].ChangedFiles = intOf (lastValue "changedFiles" ms)) ∧
    (∀ (kind : QueryKind) (ms : List (String × Json)),
      bareNode ms = true →
      (∀ kv ∈ ms, fitsScalarMember kind kv.1 kv.2 = true) →
      fitsStruct (fitsPRNodeMember kind) (.obj ms) = true ∧
      ∃ x, decodePRNode kind (.obj ms) PRNode.zero = .ok x ∧
        x.PrAuthor.Username = "" ∧ x.ReviewDecision = "" ∧ x.Reviews.Nodes.elems = []) := by
  refine ⟨?_, ?_, ?_⟩
  · intro ownerName repoName doc hresp hfits
    obtain ⟨repos, hdec⟩ := unmarshalRepoQuery_ok doc hfits
    refine ⟨_, _, getRepoPullRequests_of_decoded net ownerName repoName githubToken w _ _
      hresp hdec, ?_⟩
    intro nodes hnodes
    have hall := repo_nodes_decoded doc nodes repos hnodes hdec
    have hlen := hall.length_eq
    refine ⟨by simp [hlen], ?_⟩
    intro i hp hn ms hms hbare
    have hd : i < repos.Data.Repo.PullRequests.Nodes.elems.length := by omega
    have hnode := (List.forall₂_iff_get.mp hall).2 i hn hd
    simp only [List.get_eq_getElem, hms] at hnode
    obtain ⟨z1, z2, z3, rest⟩ := bare_node_decoded .repo ms _ hbare hnode
    simp only [List.getElem_map, repoRecord]
    exact ⟨by rw [z1]; rfl, z2, by rw [z3]; rfl, rest⟩
  · intro userName doc hresp hfits
    obtain ⟨repos, hdec⟩ := unmarshalUserQuery_ok doc hfits
    refine ⟨_, _, getPullRequestsForUser_of_decoded net userName githubToken w _ _
      hresp hdec, ?_⟩
    intro nodes hnodes
    have hall := user_nodes_decoded doc nodes repos hnodes hdec
    have hlen := hall.length_eq
    refine ⟨by simp [hlen], ?_⟩
    intro i hp hn ms hms hbare
    have hd : i < repos.Data.User.PullRequests.Nodes.elems.length := by omega
    have hnode := (List.forall₂_iff_get.mp hall).2 i hn hd
    simp only [List.get_eq_getElem, hms] at hnode
    obtain ⟨z1, z2, z3, rest⟩ := bare_node_decoded .user ms _ hbare hnode
    simp only [List.getElem_map, repoRecord]
    exact ⟨by rw [z1]; rfl, z2, by rw [z3]; rfl, rest⟩
  · intro kind ms hbare hscalar
    have hfit : fitsStruct (fitsPRNodeMember kind) (.obj ms) = true := by
      simp only [fitsStruct, List.all_eq_true]
      simp only [bareNode, List.all_eq_true] at hbare
      exact fun kv hkv =>
        fitsPRNodeMember_of_bare kind kv.1 kv.2 (hbare kv hkv) (hscalar kv hkv)
    obtain ⟨x, hx⟩ := bare_node_decodes kind ms PRNode.zero hbare hscalar
    obtain ⟨z1, z2, z3, _⟩ := bare_node_decoded kind ms x hbare hx
    exact ⟨hfit, x, hx, by rw [z1]; rfl, z2, by rw [z3]; rfl⟩

/-! ## Lemmas on the orchestrator -/

theorem getRepoPullRequests_cases (net : Net) (ownerName repoName githubToken : String)
    (w : World) :
    getRepoPullRequests net ownerName repoName githubToken w =
        .fatal ⟨w.sent ++ [repoRequest ownerName repoName githubToken]⟩ ∨
      ∃ r, getRepoPullRequests net ownerName repoName githubToken w =
        .ret r ⟨w.sent ++ [repoRequest ownerName repoName githubToken]⟩ := by
  simp only [getRepoPullRequests, PostTo, repoRequest]
  cases net.respond w.sent.length
      ⟨graphqlURL, .repoPullRequests ownerName repoName, githubToken⟩ with
  | none => exact Or.inl rfl
  | some body =>
    right
    cases h : unmarshalRepoQuery body with
    | error e => exact ⟨.error e, by simp [h]⟩
    | ok q => exact ⟨.ok (mapRepoPullRequests q), by simp [h]⟩

theorem getPullRequestsForUser_cases (net : Net) (userName githubToken : String) (w : World) :
    getPullRequestsForUser net userName githubToken w =
        .fatal ⟨w.sent ++ [userRequest userName githubToken]⟩ ∨
      ∃ r, getPullRequestsForUser net userName githubToken w =
        .ret r ⟨w.sent ++ [userRequest userName githubToken]⟩ := by
  simp only [getPullRequestsForUser, PostTo, userRequest]
  cases net.respond w.sent.length ⟨graphqlURL, .userPullRequests userName, githubToken⟩ with
  | none => exact Or.inl rfl
  | some body =>
    right
    cases h : unmarshalUserQuery body with
    | error e => exact ⟨.error e, by simp [h]⟩
    | ok q => exact ⟨.ok (mapUserPullRequests q), by simp [h]⟩

theorem setMemberPullRequests_append (pre : List TeamMember) (m : TeamMember)
    (rest : List TeamMember) (prs : List PullRequest) :
    setMemberPullRequests (pre ++ m :: rest) pre.length prs =
      pre ++ populateMember m prs :: rest := by
  induction pre with
  | nil => rfl
  | cons p ps ih => simp [setMemberPullRequests, ih]

theorem setRepoPullRequests_append (pre : List Repository) (r : Repository)
    (rest : List Repository) (prs : List PullRequest) :
    setRepoPullRequests (pre ++ r :: rest) pre.length prs =
      pre ++ populateRepo r prs :: rest := by
  induction pre with
  | nil => rfl
  | cons p ps ih => simp [setRepoPullRequests, ih]

/-- What the member loop has done when it returns. -/
theorem memberLoop_ret (net : Net) (token : String) (rest : List TeamMember) :
    ∀ (pre : List TeamMember) (org : Organization) (sent : List Request)
      (err : Option JsonError) (org1 : Organization) (w1 : World),
      org.TeamMembers = pre ++ rest →
      memberLoop net token rest pre.length org ⟨sent⟩ = .ret err org1 w1 →
      err = none ∧
      ∃ results : List (List PullRequest), results.length = rest.length ∧
        org1 = { org with TeamMembers := pre ++ List.zipWith populateMember rest results } ∧
        w1.sent = sent ++ rest.map (fun m => userRequest m.GithubUserName token) ∧
        ∀ j (hj : j < rest.length) (hr : j < results.length),
          getPullRequestsForUser net rest[j].GithubUserName token
              ⟨sent ++ (rest.map fun m => userRequest m.GithubUserName token).take j⟩ =
            .ret (.ok results[j])
              ⟨sent ++ (rest.map fun m => userRequest m.GithubUserName token).take (j + 1)⟩ := by
  induction rest with
  | nil =>
    intro pre org sent err org1 w1 horg h
    simp only [memberLoop, LoadOutcome.ret.injEq] at h
    obtain ⟨rfl, rfl, rfl⟩ := h
    refine ⟨rfl, [], rfl, ?_, by simp, ?_⟩
    · cases org; simp_all
    · intro j hj; simp at hj
  | cons m rest ih =>
    intro pre org sent err org1 w1 horg h
    simp only [memberLoop] at h
    rcases getPullRequestsForUser_cases net m.GithubUserName token ⟨sent⟩ with hf | ⟨r, hr⟩
    · simp [hf] at h
    · cases r with
      | error e => simp [hr] at h
      | ok prs =>
        simp only [hr] at h
        rw [horg, setMemberPullRequests_append] at h
        have h2 := ih (pre ++ [populateMember m prs])
          { org with TeamMembers := pre ++ populateMember m prs :: rest }
          (sent ++ [userRequest m.GithubUserName token]) err org1 w1 (by simp)
          (by simpa using h)
        obtain ⟨herr, results, hlen, horg1, hsent, hall⟩ := h2
        refine ⟨herr, prs :: results, by simp [hlen], ?_, ?_, ?_⟩
        · simp [horg1]
        · simp [hsent]
        · intro j hj hrj
          cases j with
          | zero => simpa using hr
          | succ j =>
            have := hall j (by simpa using hj) (by simpa using hrj)
            simpa [List.append_assoc] using this

/-- What the repository loop, and the member loop after it, have done when the method
returns. -/
theorem repoLoop_ret (net : Net) (token : String) (rest : List Repository) :
    ∀ (pre : List Repository) (org : Organization) (sent : List Request)
      (err : Option JsonError) (org1 : Organization) (w1 : World),
      org.Repositories = pre ++ rest →
      repoLoop net token rest pre.length org ⟨sent⟩ = .ret err org1 w1 →
      err = none ∧
      ∃ (rres mres : List (List PullRequest)),
        rres.length = rest.length ∧ mres.length = org.TeamMembers.length ∧
        org1 = { Name := org.Name,
                 Repositories := pre ++ List.zipWith populateRepo rest rres,
                 TeamMembers := List.zipWith populateMember org.TeamMembers mres } ∧
        w1.sent = sent ++ rest.map (fun r => repoRequest org.Name r.Name token) ++
          org.TeamMembers.map (fun m => userRequest m.GithubUserName token) ∧
        (∀ i (hi : i < rest.length) (hr : i < rres.length),
          getRepoPullRequests net org.Name rest[i].Name token
              ⟨sent ++ (rest.map fun r => repoRequest org.Name r.Name token).take i⟩ =
            .ret (.ok rres[i])
              ⟨sent ++ (rest.map fun r => repoRequest org.Name r.Name token).take (i + 1)⟩) ∧
        (∀ j (hj : j < org.TeamMembers.length) (hr : j < mres.length),
          getPullRequestsForUser net org.TeamMembers[j].GithubUserName token
              ⟨sent ++ rest.map (fun r => repoRequest org.Name r.Name token) ++
                (org.TeamMembers.map fun m => userRequest m.GithubUserName token).take j⟩ =
            .ret (.ok mres[j])
              ⟨sent ++ rest.map (fun r => repoRequest org.Name r.Name token) ++
                (org.TeamMembers.map fun m => userRequest m.GithubUserName token).take (j + 1)⟩) := by
  induction rest with
  | nil =>
    intro pre org sent err org1 w1 horg h
    simp only [repoLoop] at h
    obtain ⟨herr, mres, hlen, horg1, hsent, hall⟩ :=
      memberLoop_ret net token org.TeamMembers [] org sent err org1 w1 rfl h
    refine ⟨herr, [], mres, rfl, hlen, ?_, by simpa using hsent, ?_, ?_⟩
    · rw [horg1]
      cases org
      simp_all
    · intro i hi; simp at hi
    · intro j hj hr
      simpa using hall j hj hr
  | cons r rest ih =>
    intro pre org sent err org1 w1 horg h
    simp only [repoLoop] at h
    rcases getRepoPullRequests_cases net org.Name r.Name token ⟨sent⟩ with hf | ⟨res, hr⟩
    · simp [hf] at h
    · cases res with
      | error e => simp [hr] at h
      | ok prs =>
        simp only [hr] at h
        rw [horg, setRepoPullRequests_append] at h
        have h2 := ih (pre ++ [populateRepo r prs])
          { org with Repositories := pre ++ populateRepo r prs :: rest }
          (sent ++ [repoRequest org.Name r.Name token]) err org1 w1 (by simp)
          (by simpa using h)
        obtain ⟨herr, rres, mres, hlen, hmlen, horg1, hsent, hrepos, hmembers⟩ := h2
        refine ⟨herr, prs :: rres, mres, by simp [hlen], hmlen, ?_, ?_, ?_, ?_⟩
        · simp [horg1]
        · simp [hsent]
        · intro i hi hri
          cases i with
          | zero => simpa using hr
          | succ i =>
            have := hrepos i (by simpa using hi) (by simpa using hri)
            simpa [List.append_assoc] using this
        · intro j hj hrj
          have := hmembers j hj hrj
          simpa [List.append_assoc] using this

/-- The member loop ends the process at the first team member whose fetch fails. -/
theorem memberLoop_abort (net : Net) (token : String) (rest : List TeamMember) :
    ∀ (k : Nat) (pre : List TeamMember) (org : Organization) (sent : List Request),
      org.TeamMembers = pre ++ rest →
      (hk : k < rest.length) →
      (∀ j (hj : j < rest.length), j < k →
        fetchFailed (getPullRequestsForUser net rest[j].GithubUserName token
          ⟨sent ++ (rest.map fun m => userRequest m.GithubUserName token).take j⟩) = false) →
      fetchFailed (getPullRequestsForUser net rest[k].GithubUserName token
          ⟨sent ++ (rest.map fun m => userRequest m.GithubUserName token).take k⟩) = true →
      ∃ done : List TeamMember, done.length = pre.length + k ∧
        memberLoop net token rest pre.length org ⟨sent⟩ =
          .fatal { org with TeamMembers := done ++ rest.drop k }
            ⟨sent ++ (rest.map fun m => userRequest m.GithubUserName token).take (k + 1)⟩ := by
  induction rest with
  | nil => intro k pre org sent _ hk; simp at hk
  | cons m rest ih =>
    intro k pre org sent horg hk hbefore hfail
    cases k with
    | zero =>
      refine ⟨pre, rfl, ?_⟩
      simp only [List.take_zero, List.append_nil, List.getElem_cons_zero] at hfail
      have horg2 : { org with TeamMembers := pre ++ List.drop 0 (m :: rest) } = org := by
        cases org; simp_all
      rw [horg2]
      simp only [memberLoop]
      rcases getPullRequestsForUser_cases net m.GithubUserName token ⟨sent⟩ with hf | ⟨res, hr⟩
      · simp [hf]
      · cases res with
        | error e => simp [hr]
        | ok prs => simp [hr, fetchFailed] at hfail
    | succ k =>
      have h0 := hbefore 0 (by simp) (by omega)
      simp only [List.take_zero, List.append_nil, List.getElem_cons_zero] at h0
      rcases getPullRequestsForUser_cases net m.GithubUserName token ⟨sent⟩ with hf | ⟨res, hr⟩
      · simp [hf, fetchFailed] at h0
      · cases res with
        | error e => simp [hr, fetchFailed] at h0
        | ok prs =>
          obtain ⟨done, hlen, hloop⟩ := ih k (pre ++ [populateMember m prs])
            { org with TeamMembers := pre ++ populateMember m prs :: rest }
            (sent ++ [userRequest m.GithubUserName token]) (by simp)
            (by simpa using hk)
            (by
              intro j hj hjk
              have := hbefore (j + 1) (by simpa using hj) (by omega)
              simpa [List.append_assoc] using this)
            (by simpa [List.append_assoc] using hfail)
          refine ⟨done, by simp at hlen; omega, ?_⟩
          simp only [memberLoop, hr]
          rw [horg, setMemberPullRequests_append]
          simpa [List.append_assoc] using hloop

/-- The repository loop ends the process at the first repository whose fetch fails. -/
theorem repoLoop_abort (net : Net) (token : String) (rest : List Repository) :
    ∀ (k : Nat) (pre : List Repository) (org : Organization) (sent : List Request),
      org.Repositories = pre ++ rest →
      (hk : k < rest.length) →
      (∀ i (hi : i < rest.length), i < k →
        fetchFailed (getRepoPullRequests net org.Name rest[i].Name token
          ⟨sent ++ (rest.map fun r => repoRequest org.Name r.Name token).take i⟩) = false) →
      fetchFailed (getRepoPullRequests net org.Name rest[k].Name token
          ⟨sent ++ (rest.map fun r => repoRequest org.Name r.Name token).take k⟩) = true →
      ∃ done : List Repository, done.length = pre.length + k ∧
        repoLoop net token rest pre.length org ⟨sent⟩ =
          .fatal { org with Repositories := done ++ rest.drop k }
            ⟨sent ++ (rest.map fun r => repoRequest org.Name r.Name token).take (k + 1)⟩ := by
  induction rest with
  | nil => intro k pre org sent _ hk; simp at hk
  | cons r rest ih =>
    intro k pre org sent horg hk hbefore hfail
    cases k with
    | zero =>
      refine ⟨pre, rfl, ?_⟩
      simp only [List.take_zero, List.append_nil, List.getElem_cons_zero] at hfail
      have horg2 : { org with Repositories := pre ++ List.drop 0 (r :: rest) } = org := by
        cases org; simp_all
      rw [horg2]
      simp only [repoLoop]
      rcases getRepoPullRequests_cases net org.Name r.Name token ⟨sent⟩ with hf | ⟨res, hr⟩
      · simp [hf]
      · cases res with
        | error e => simp [hr]
        | ok prs => simp [hr, fetchFailed] at hfail
    | succ k =>
      have h0 := hbefore 0 (by simp) (by omega)
      simp only [List.take_zero, List.append_nil, List.getElem_cons_zero] at h0
      rcases getRepoPullRequests_cases net org.Name r.Name token ⟨sent⟩ with hf | ⟨res, hr⟩
      · simp [hf, fetchFailed] at h0
      · cases res with
        | error e => simp [hr, fetchFailed] at h0
        | ok prs =>
          obtain ⟨done, hlen, hloop⟩ := ih k (pre ++ [populateRepo r prs])
            { org with Repositories := pre ++ populateRepo r prs :: rest }
            (sent ++ [repoRequest org.Name r.Name token]) (by simp)
            (by simpa using hk)
            (by
              intro i hi hik
              have := hbefore (i + 1) (by simpa using hi) (by omega)
              simpa [List.append_assoc] using this)
            (by simpa [List.append_assoc] using hfail)
          refine ⟨done, by simp at hlen; omega, ?_⟩
          simp only [repoLoop, hr]
          rw [horg, setRepoPullRequests_append]
          simpa [List.append_assoc] using hloop

/-- When every repository fetch succeeds, the method ends the process at the first team
member whose fetch fails. -/
theorem repoLoop_abort_member (net : Net) (token : String) (rest : List Repository) :
    ∀ (k : Nat) (pre : List Repository) (org : Organization) (sent : List Request),
      org.Repositories = pre ++ rest →
      (∀ i (hi : i < rest.length),
        fetchFailed (getRepoPullRequests net org.Name rest[i].Name token
          ⟨sent ++ (rest.map fun r => repoRequest org.Name r.Name token).take i⟩) = false) →
      (hk : k < org.TeamMembers.length) →
      (∀ j (hj : j < org.TeamMembers.length), j < k →
        fetchFailed (getPullRequestsForUser net org.TeamMembers[j].GithubUserName token
          ⟨sent ++ rest.map (fun r => repoRequest org.Name r.Name token) ++
            (org.TeamMembers.map fun m => userRequest m.GithubUserName token).take j⟩) = false) →
      fetchFailed (getPullRequestsForUser net org.TeamMembers[k].GithubUserName token
          ⟨sent ++ rest.map (fun r => repoRequest org.Name r.Name token) ++
            (org.TeamMembers.map fun m => userRequest m.GithubUserName token).take k⟩) = true →
      ∃ (rdone : List Repository) (mdone : List TeamMember),
        rdone.length = pre.length + rest.length ∧ mdone.length = k ∧
        repoLoop net token rest pre.length org ⟨sent⟩ =
          .fatal { Name := org.Name, Repositories := rdone,
                   TeamMembers := mdone ++ org.TeamMembers.drop k }
            ⟨sent ++ rest.map (fun r => repoRequest org.Name r.Name token) ++
              (org.TeamMembers.map fun m => userRequest m.GithubUserName token).take (k + 1)⟩ := by
  induction rest with
  | nil =>
    intro k pre org sent horg _ hk hbefore hfail
    obtain ⟨done, hlen, hloop⟩ := memberLoop_abort net token org.TeamMembers k [] org sent rfl hk
      (by intro j hj hjk; simpa using hbefore j hj hjk) (by simpa using hfail)
    refine ⟨org.Repositories, done, by simp [horg], by simpa using hlen, ?_⟩
    simp only [repoLoop]
    simpa using hloop
  | cons r rest ih =>
    intro k pre org sent horg hrepos hk hbefore hfail
    have h0 := hrepos 0 (by simp)
    simp only [List.take_zero, List.append_nil, List.getElem_cons_zero] at h0
    rcases getRepoPullRequests_cases net org.Name r.Name token ⟨sent⟩ with hf | ⟨res, hr⟩
    · simp [hf, fetchFailed] at h0
    · cases res with
      | error e => simp [hr, fetchFailed] at h0
      | ok prs =>
        obtain ⟨rdone, mdone, hrlen, hmlen, hloop⟩ := ih k (pre ++ [populateRepo r prs])
          { org with Repositories := pre ++ populateRepo r prs :: rest }
          (sent ++ [repoRequest org.Name r.Name token]) (by simp)
          (by
            intro i hi
            have := hrepos (i + 1) (by simpa using hi)
            simpa [List.append_assoc] using this)
          hk
          (by
            intro j hj hjk
            have := hbefore j hj hjk
            simpa [List.append_assoc] using this)
          (by simpa [List.append_assoc] using hfail)
        refine ⟨rdone, mdone, by simp at hrlen ⊢; omega, hmlen, ?_⟩
        simp only [repoLoop, hr]
        rw [horg, setRepoPullRequests_append]
        simpa [List.append_assoc] using hloop

/-- C3: when `LoadOpenPullRequests` returns, the requests it has issued are exactly one
repository query per repository and one user query per team member, in order; the
organization keeps its name, the number and order of its repositories and team members
and every field of them but `PullRequests`; and the `PullRequests` of the i-th
repository (of the j-th team member) is what `getRepoPullRequests` for
`(org.Name, Repositories[i].Name)` (what `getPullRequestsForUser` for
`TeamMembers[j].GithubUserName`) returned for that query of the invocation. -/
theorem load_populates_every_target (net : Net) (org : Organization) (token : String)
    (w : World) (err : Option JsonError) (org1 : Organization) (w1 : World)
    (h : LoadOpenPullRequests net org token w = .ret err org1 w1) :
    w1.sent = w.sent ++ requestsFor org token ∧
    org1.Name = org.Name ∧
    org1.Repositories.length = org.Repositories.length ∧
    org1.TeamMembers.length = org.TeamMembers.length ∧
    (∀ i (h1 : i < org1.Repositories.length) (h0 : i < org.Repositories.length),
      org1.Repositories[i].Name = org.Repositories[i].Name ∧
      getRepoPullRequests net org.Name org.Repositories[i].Name token
          ⟨w.sent ++ (requestsFor org token).take i⟩ =
        .ret (.ok org1.Repositories[i].PullRequests)
          ⟨w.sent ++ (requestsFor org token).take (i + 1)⟩) ∧
    (∀ j (h1 : j < org1.TeamMembers.length) (h0 : j < org.TeamMembers.length),
      org1.TeamMembers[j].GithubUserName = org.TeamMembers[j].GithubUserName ∧
      org1.TeamMembers[j].EMail = org.TeamMembers[j].EMail ∧
      org1.TeamMembers[j].DisplayName = org.TeamMembers[j].DisplayName ∧
      getPullRequestsForUser net org.TeamMembers[j].GithubUserName token
          ⟨w.sent ++ (requestsFor org token).take (org.Repositories.length + j)⟩ =
        .ret (.ok org1.TeamMembers[j].PullRequests)
          ⟨w.sent ++ (requestsFor org token).take (org.Repositories.length + j + 1)⟩) := by
  obtain ⟨_, rres, mres, hrlen, hmlen, horg1, hsent, hrepos, hmembers⟩ :=
    repoLoop_ret net token org.Repositories [] org w.sent err org1 w1 rfl h
  subst horg1
  refine ⟨by simpa [requestsFor, repoRequests, memberRequests, List.append_assoc] using hsent,
    rfl, by simp [hrlen], by simp [hmlen], ?_, ?_⟩
  · intro i h1 h0
    have hi : i < rres.length := by omega
    have hq := hrepos i h0 hi
    have ht : ∀ n, n ≤ org.Repositories.length →
        (requestsFor org token).take n = (repoRequests org token).take n := by
      intro n hn
      exact List.take_append_of_le_length (by simpa [repoRequests] using hn)
    rw [ht i (by omega), ht (i + 1) (by omega)]
    refine ⟨by simp [populateRepo], ?_⟩
    simpa [populateRepo, repoRequests] using hq
  · intro j h1 h0
    have hj : j < mres.length := by omega
    have hq := hmembers j h0 hj
    have ht : ∀ n, (requestsFor org token).take (org.Repositories.length + n) =
        repoRequests org token ++ (memberRequests org token).take n := by
      intro n
      have hl : (repoRequests org token).length = org.Repositories.length := by
        simp [repoRequests]
      rw [requestsFor, ← hl, List.take_append]
    rw [ht j, Nat.add_assoc, ht (j + 1)]
    refine ⟨by simp [populateMember], by simp [populateMember], by simp [populateMember], ?_⟩
    simpa [populateMember, repoRequests, memberRequests, List.append_assoc] using hq

/-- C4: `LoadOpenPullRequests` never hands an error back (what it returns is `nil`), it
returns only when no fetch has failed, and a failing fetch ends the process on the
spot. If the fetch of repository `k` fails (the
round trip or the decoding) after those before it succeeded, the process exits with
exactly the first `k + 1` requests issued, and the repositories from `k` on and all team
members are as they were; likewise for team member `k` once every repository and the
members before `k` were fetched: the first `Repositories.length + k + 1` requests are
issued and the team members from `k` on are as they were. -/
theorem fetch_failure_ends_invocation (net : Net) (org : Organization) (token : String)
    (w : World) :
    (∀ err org1 w1, LoadOpenPullRequests net org token w = .ret err org1 w1 →
      err = none ∧
      (∀ i (hi : i < org.Repositories.length),
        fetchFailed (getRepoPullRequests net org.Name org.Repositories[i].Name token
          ⟨w.sent ++ (requestsFor org token).take i⟩) = false) ∧
      (∀ j (hj : j < org.TeamMembers.length),
        fetchFailed (getPullRequestsForUser net org.TeamMembers[j].GithubUserName token
          ⟨w.sent ++ (requestsFor org token).take (org.Repositories.length + j)⟩) = false)) ∧
    (∀ k (hk : k < org.Repositories.length),
      (∀ i (hi : i < org.Repositories.length), i < k →
        fetchFailed (getRepoPullRequests net org.Name org.Repositories[i].Name token
          ⟨w.sent ++ (requestsFor org token).take i⟩) = false) →
      fetchFailed (getRepoPullRequests net org.Name org.Repositories[k].Name token
          ⟨w.sent ++ (requestsFor org token).take k⟩) = true →
      ∃ org1, LoadOpenPullRequests net org token w =
          .fatal org1 ⟨w.sent ++ (requestsFor org token).take (k + 1)⟩ ∧
        org1.Name = org.Name ∧
        org1.Repositories.length = org.Repositories.length ∧
        org1.Repositories.drop k = org.Repositories.drop k ∧
        org1.TeamMembers = org.TeamMembers) ∧
    (∀ k (hk : k < org.TeamMembers.length),
      (∀ i (hi : i < org.Repositories.length),
        fetchFailed (getRepoPullRequests net org.Name org.Repositories[i].Name token
          ⟨w.sent ++ (requestsFor org token).take i⟩) = false) →
      (∀ j (hj : j < org.TeamMembers.length), j < k →
        fetchFailed (getPullRequestsForUser net org.TeamMembers[j].GithubUserName token
          ⟨w.sent ++ (requestsFor org token).take (org.Repositories.length + j)⟩) = false) →
      fetchFailed (getPullRequestsForUser net org.TeamMembers[k].GithubUserName token
          ⟨w.sent ++ (requestsFor org token).take (org.Repositories.length + k)⟩) = true →
      ∃ org1, LoadOpenPullRequests net org token w =
          .fatal org1 ⟨w.sent ++ (requestsFor org token).take (org.Repositories.length + k + 1)⟩ ∧
        org1.Name = org.Name ∧
        org1.Repositories.length = org.Repositories.length ∧
        org1.TeamMembers.length = org.TeamMembers.length ∧
        org1.TeamMembers.drop k = org.TeamMembers.drop k) := by
  have ht1 : ∀ n, n ≤ org.Repositories.length →
      (requestsFor org token).take n = (repoRequests org token).take n := by
    intro n hn
    exact List.take_append_of_le_length (by simpa [repoRequests] using hn)
  have ht2 : ∀ n, (requestsFor org token).take (org.Repositories.length + n) =
      repoRequests org token ++ (memberRequests org token).take n := by
    intro n
    have hl : (repoRequests org token).length = org.Repositories.length := by
      simp [repoRequests]
    rw [requestsFor, ← hl, List.take_append]
  refine ⟨?_, ?_, ?_⟩
  · intro err org1 w1 h
    obtain ⟨herr, rres, mres, hrlen, hmlen, _, _, hrepos, hmembers⟩ :=
      repoLoop_ret net token org.Repositories [] org w.sent err org1 w1 rfl h
    refine ⟨herr, ?_, ?_⟩
    · intro i hi
      have hq := hrepos i hi (by omega)
      rw [ht1 i (by omega)]
      simp only [repoRequests]
      rw [hq]
      rfl
    · intro j hj
      have hq := hmembers j hj (by omega)
      rw [ht2 j]
      simp only [repoRequests, memberRequests, ← List.append_assoc]
      rw [hq]
      rfl
  · intro k hk hbefore hfail
    obtain ⟨done, hlen, hloop⟩ := repoLoop_abort net token org.Repositories k [] org w.sent rfl hk
      (by
        intro i hi hik
        have := hbefore i hi hik
        rw [ht1 i (by omega)] at this
        simpa [repoRequests] using this)
      (by
        rw [ht1 k (by omega)] at hfail
        simpa [repoRequests] using hfail)
    refine ⟨{ org with Repositories := done ++ org.Repositories.drop k }, ?_, rfl, ?_, ?_, rfl⟩
    · rw [ht1 (k + 1) (by omega)]
      simpa [LoadOpenPullRequests, repoRequests] using hloop
    · simp at hlen
      simp [hlen]
      omega
    · simp at hlen
      simp [List.drop_append_eq_append_drop, hlen]
  · intro k hk hrepos hbefore hfail
    obtain ⟨rdone, mdone, hrlen, hmlen, hloop⟩ :=
      repoLoop_abort_member net token org.Repositories k [] org w.sent rfl
        (by
          intro i hi
          have := hrepos i hi
          rw [ht1 i (by omega)] at this
          simpa [repoRequests] using this)
        hk
        (by
          intro j hj hjk
          have := hbefore j hj hjk
          rw [ht2 j] at this
          simpa [repoRequests, memberRequests, List.append_assoc] using this)
        (by
          rw [ht2 k] at hfail
          simpa [repoRequests, memberRequests, List.append_assoc] using hfail)
    refine ⟨{ Name := org.Name, Repositories := rdone,
              TeamMembers := mdone ++ org.TeamMembers.drop k }, ?_, rfl, by simpa using hrlen,
      ?_, ?_⟩
    · rw [Nat.add_assoc, ht2 (k + 1)]
      simpa [LoadOpenPullRequests, repoRequests, memberRequests, List.append_assoc] using hloop
    · simp [hmlen]
      omega
    · simp [List.drop_append_eq_append_drop, hmlen]

/-! ## Lemmas on the aggregator -/

theorem scanReview_counts (e : PullRequestSummaryEntry) (r : Review) :
    (scanReview e r).Approvals = e.Approvals + (if r.State = "APPROVED" then 1 else 0) ∧
    (scanReview e r).Rejections =
      e.Rejections + (if r.State = "CHANGES_REQUESTED" then 1 else 0) ∧
    (scanReview e r).Reviews = e.Reviews + 1 := by
  unfold scanReview
  by_cases h1 : r.State = "APPROVED"
  · have h2 : ¬ r.State = "CHANGES_REQUESTED" := by rw [h1]; decide
    simp [h1]
  · by_cases h2 : r.State = "CHANGES_REQUESTED"
    · simp [h2]
    · simp [h1, h2]

theorem foldl_scanReview_counts (reviews : List Review) :
    ∀ e : PullRequestSummaryEntry,
      (reviews.foldl scanReview e).Approvals =
          e.Approvals + (reviews.countP fun r => decide (r.State = "APPROVED") : Nat) ∧
      (reviews.foldl scanReview e).Rejections =
          e.Rejections + (reviews.countP fun r => decide (r.State = "CHANGES_REQUESTED") : Nat) ∧
      (reviews.foldl scanReview e).Reviews = e.Reviews + (reviews.length : Nat) := by
  induction reviews with
  | nil => intro e; simp
  | cons r rest ih =>
    intro e
    obtain ⟨a, b, c⟩ := ih (scanReview e r)
    obtain ⟨a1, b1, c1⟩ := scanReview_counts e r
    simp only [List.foldl_cons, a, b, c, a1, b1, c1, List.countP_cons, List.length_cons]
    refine ⟨?_, ?_, ?_⟩
    · by_cases h : r.State = "APPROVED"
      · simp [h]; omega
      · simp [h]
    · by_cases h : r.State = "CHANGES_REQUESTED"
      · simp [h]; omega
      · simp [h]
    · push_cast; omega

/-- A non-empty output of the lookup command is what the function returns, whatever the
environment holds. -/
theorem lookup_output_is_returned (os : OS) (key stdout : String)
    (hout : os.output (dotEnvCommand key) = some stdout) (hne : stdout ≠ "") :
    loadValueFromDotEnvFile os key = .ret stdout := by
  have hlen : stdout.length > 0 := by
    rcases stdout with ⟨data⟩
    cases data with
    | nil => exact absurd rfl hne
    | cons c cs => simp [String.length]
  simp [loadValueFromDotEnvFile, hout, hlen]

/-! ## Lemmas on the shell pipeline -/

theorem shell_github_token (dotEnv : Option String) :
    shell dotEnv (dotEnvCommand "GITHUB_TOKEN") =
      some (String.mk (printLines
        ((grep "GITHUB_TOKEN".toList (dotEnv.getD "").toList).map cutSecondField))) := by
  rfl

theorem splitOnChar_not_mem (c : Char) (a : List Char) (h : c ∉ a) :
    splitOnChar c a = [a] := by
  induction a with
  | nil => rfl
  | cons x xs ih =>
    have hx : x ≠ c := fun e => h (by simp [e])
    have hxs : c ∉ xs := fun e => h (by simp [e])
    simp [splitOnChar, hx, ih hxs]

theorem splitOnChar_append (c : Char) (a b : List Char) (h : c ∉ a) :
    splitOnChar c (a ++ c :: b) = a :: splitOnChar c b := by
  induction a with
  | nil => simp [splitOnChar]
  | cons x xs ih =>
    have hx : x ≠ c := fun e => h (by simp [e])
    have hxs : c ∉ xs := fun e => h (by simp [e])
    simp [splitOnChar, hx, ih hxs]

theorem startsWith_append (p rest : List Char) : startsWith p (p ++ rest) = true := by
  induction p with
  | nil => rfl
  | cons x xs ih => simp [startsWith, ih]

theorem occursIn_prefix (p rest : List Char) (hp : p ≠ []) : occursIn p (p ++ rest) = true := by
  cases p with
  | nil => exact absurd rfl hp
  | cons x xs =>
    have := startsWith_append (x :: xs) rest
    simp only [List.cons_append] at this ⊢
    simp [occursIn, this]

theorem pipeline_one_line (value : List Char) (hnl : '\n' ∉ value) (heq : '=' ∉ value) :
    printLines ((grep "GITHUB_TOKEN".toList ("GITHUB_TOKEN=".toList ++ value ++ ['\n'])).map
      cutSecondField) = value ++ ['\n'] := by
  have hline : '\n' ∉ "GITHUB_TOKEN=".toList ++ value := by
    intro hm
    rcases List.mem_append.mp hm with h | h
    · revert h; decide
    · exact hnl h
  have hl : textLines ("GITHUB_TOKEN=".toList ++ value ++ ['\n']) =
      ["GITHUB_TOKEN=".toList ++ value] := by
    unfold textLines
    rw [splitOnChar_append '\n' _ [] hline]
    simp [splitOnChar]
  have hocc : occursIn "GITHUB_TOKEN".toList ("GITHUB_TOKEN=".toList ++ value) = true :=
    occursIn_prefix "GITHUB_TOKEN".toList ('=' :: value) (by decide)
  have hcut : cutSecondField ("GITHUB_TOKEN=".toList ++ value) = value := by
    unfold cutSecondField
    have : "GITHUB_TOKEN=".toList ++ value = "GITHUB_TOKEN".toList ++ '=' :: value := rfl
    rw [this, splitOnChar_append '=' _ _ (by decide), splitOnChar_not_mem '=' value heq]
  unfold grep printLines
  rw [hl]
  simp only [List.filter, hocc, List.map, hcut, List.flatten, List.append_nil]

/-- C7, where the code departs from it: for every value (without `=` and newline) that
the file `.env` supplies for `GITHUB_TOKEN` and every environment, the file wins over
the environment, but what `loadValueFromDotEnvFile` returns is not the value: it is the
output of the pipeline as printed, the value followed by a newline. -/
theorem dotenv_value_keeps_newline (value : String) (getenv : String → String)
    (hnl : '\n' ∉ value.toList) (heq : '=' ∉ value.toList) :
    loadValueFromDotEnvFile (dotEnvOS (some ("GITHUB_TOKEN=" ++ value ++ "\n")) getenv)
        "GITHUB_TOKEN" = .ret (value ++ "\n") ∧
    value ++ "\n" ≠ value := by
  have hne : value ++ "\n" ≠ value := by
    intro h
    have := congrArg String.length h
    simp only [String.length_append] at this
    have h1 : ("\n" : String).length = 1 := by decide
    omega
  have hout : (dotEnvOS (some ("GITHUB_TOKEN=" ++ value ++ "\n")) getenv).output
      (dotEnvCommand "GITHUB_TOKEN") = some (value ++ "\n") := by
    show shell (some ("GITHUB_TOKEN=" ++ value ++ "\n")) (dotEnvCommand "GITHUB_TOKEN") = _
    rw [shell_github_token]
    have hfile : ((some ("GITHUB_TOKEN=" ++ value ++ "\n")).getD "").toList =
        "GITHUB_TOKEN=".toList ++ value.toList ++ ['\n'] := by
      simp only [Option.getD_some, String.toList, String.data_append]
    rw [hfile, pipeline_one_line value.toList hnl heq]
    rfl
  refine ⟨lookup_output_is_returned _ _ _ hout ?_, hne⟩
  intro h
  have := congrArg String.length h
  simp only [String.length_append] at this
  have h1 : ("\n" : String).length = 1 := by decide
  have h0 : ("" : String).length = 0 := by decide
  omega

/-- C8: when the `.env` lookup gives no output, `loadValueFromDotEnvFile` returns the
environment's value for the key if that is non-empty, and the empty string if it is
empty too. -/
theorem empty_lookup_falls_back (os : OS) (key : String)
    (hout : os.output (dotEnvCommand key) = some "") :
    (∀ v : String, os.getenv key = v → v ≠ "" → loadValueFromDotEnvFile os key = .ret v) ∧
    (os.getenv key = "" → loadValueFromDotEnvFile os key = .ret "") := by
  refine ⟨?_, ?_⟩
  · intro v hv hne
    subst hv
    simp [loadValueFromDotEnvFile, hout, hne]
  · intro hv
    simp [loadValueFromDotEnvFile, hout, hv]

/-- C9: for every repository name and list of pull requests the aggregator gives one
entry with that name, `TotalOpenPRs` the length of the list and one summary per pull
request in input order, whose `Approvals`, `Rejections` and `Reviews` are the numbers of
that pull request's reviews in state `APPROVED`, in state `CHANGES_REQUESTED`, and in any
state; the empty list gives `TotalOpenPRs = 0` and no summaries. -/
theorem summary_counts_reviews (repository : String) (prs : List PullRequest) :
    (summarizeRepository repository prs).Repository = repository ∧
    (summarizeRepository repository prs).TotalOpenPRs = (prs.length : Nat) ∧
    (summarizeRepository repository prs).OpenPRs.length = prs.length ∧
    (∀ i (h1 : i < (summarizeRepository repository prs).OpenPRs.length) (h0 : i < prs.length),
      (summarizeRepository repository prs).OpenPRs[i].Title = prs[i].Title ∧
      (summarizeRepository repository prs).OpenPRs[i].Permalink = prs[i].Permalink ∧
      (summarizeRepository repository prs).OpenPRs[i].Approvals =
        (prs[i].Reviews.countP fun r => decide (r.State = "APPROVED") : Nat) ∧
      (summarizeRepository repository prs).OpenPRs[i].Rejections =
        (prs[i].Reviews.countP fun r => decide (r.State = "CHANGES_REQUESTED") : Nat) ∧
      (summarizeRepository repository prs).OpenPRs[i].Reviews =
        (prs[i].Reviews.length : Nat)) ∧
    summarizeRepository repository [] = ⟨repository, 0, []⟩ := by
  have hopen : (summarizeRepository repository prs).OpenPRs = prs.map summarizePullRequest := by
    simp [summarizeRepository, foldl_append_singleton]
  refine ⟨rfl, rfl, by simp [hopen], ?_, rfl⟩
  intro i h1 h0
  have hi : (summarizeRepository repository prs).OpenPRs[i] = summarizePullRequest prs[i] := by
    simp [hopen]
  rw [hi]
  obtain ⟨a, b, c⟩ := foldl_scanReview_counts prs[i].Reviews
    { Title := prs[i].Title, Permalink := prs[i].Permalink, Author := prs[i].AuthorUserName,
      UpdatedAt := prs[i].UpdatedAt, Approvals := 0, LastApprovalAt := "",
      Rejections := 0, LastRejectionAt := "", Reviews := 0, LastReviewAt := "" }
  have htitle : ∀ (rs : List Review) (e : PullRequestSummaryEntry),
      (rs.foldl scanReview e).Title = e.Title ∧ (rs.foldl scanReview e).Permalink = e.Permalink := by
    intro rs
    induction rs with
    | nil => intro e; exact ⟨rfl, rfl⟩
    | cons r rest ih =>
      intro e
      obtain ⟨t, p⟩ := ih (scanReview e r)
      simp only [List.foldl_cons, t, p]
      unfold scanReview
      split_ifs <;> exact ⟨rfl, rfl⟩
  unfold summarizePullRequest
  refine ⟨(htitle _ _).1, (htitle _ _).2, ?_, ?_, ?_⟩
  · simpa using a
  · simpa using b
  · simpa using c

/-! ## The properties at concrete inputs -/

/-- C1 at an answer that lists pull request 7 twice, and at an answer of the user query
with pull request 7 of two repositories: both records come back. -/
theorem mappers_one_record_per_node_witness :
    (∃ prs w1, getRepoPullRequests (constNet (.json twiceDoc)) "acme" "svc" "t" ⟨[]⟩ =
        .ret (.ok prs) w1 ∧ prs.length = 2) ∧
    (∃ prs w1, getPullRequestsForUser (constNet (.json twoReposDoc)) "alice" "t" ⟨[]⟩ =
        .ret (.ok prs) w1 ∧ prs.length = 2) := by
  constructor
  · obtain ⟨prs, w1, heq, hlen, _⟩ :=
      (mappers_one_record_per_node (constNet (.json twiceDoc)) "t" ⟨[]⟩ (.json twiceDoc)).1
        "acme" "svc" twiceDecoded rfl (by decide)
    exact ⟨prs, w1, heq, hlen.trans (by decide)⟩
  · obtain ⟨prs, w1, heq, hlen, _⟩ :=
      (mappers_one_record_per_node (constNet (.json twoReposDoc)) "t" ⟨[]⟩
        (.json twoReposDoc)).2 "alice" twoReposDecoded rfl (by decide)
    exact ⟨prs, w1, heq, hlen.trans (by decide)⟩

/-- C10 at the answer `twiceDoc`: the first record has the two reviews of its node. -/
theorem reviews_follow_review_nodes_witness :
    ∃ prs w1, ∃ h : 0 < prs.length,
      getRepoPullRequests (constNet (.json twiceDoc)) "acme" "svc" "t" ⟨[]⟩ =
        .ret (.ok prs) w1 ∧ prs[0].Reviews.length = 2 := by
  obtain ⟨prs, w1, heq, hlen, hall⟩ :=
    (reviews_follow_review_nodes (constNet (.json twiceDoc)) "t" ⟨[]⟩ (.json twiceDoc)).1
      "acme" "svc" twiceDecoded rfl (by decide)
  have h0 : 0 < prs.length := by rw [hlen]; decide
  exact ⟨prs, w1, h0, heq, (hall 0 h0 (by decide)).1.trans (by decide)⟩

/-- C5, refuted as stated: the query is issued for repository `svc`, the API answers
with the name `SVC`, and the record carries `SVC`. -/
theorem repository_is_not_the_queried_name :
    getRepoPullRequests (constNet (.json renamedDoc)) "acme" "svc" "t" ⟨[]⟩ =
      .ret (.ok [fullRecord "SVC"]) ⟨[repoRequest "acme" "svc" "t"]⟩ ∧
    (fullRecord "SVC").Repository ≠ "svc" := by
  decide

/-- C5 as amended, at the answer `renamedDoc`: every record carries the answer's name. -/
theorem repository_comes_from_response_witness :
    ∃ prs w1, getRepoPullRequests (constNet (.json renamedDoc)) "acme" "svc" "t" ⟨[]⟩ =
      .ret (.ok prs) w1 ∧ ∀ pr ∈ prs, pr.Repository = "SVC" :=
  (repository_comes_from_response (constNet (.json renamedDoc)) "t" ⟨[]⟩ (.json renamedDoc)).1
    "acme" "svc" ⟨⟨⟨"SVC", ⟨⟨[fullDecoded ""], []⟩⟩⟩⟩⟩ rfl (by decide)

/-- C2 as amended, at a body that is not JSON, at the answer to a bad token and at the
answer for a repository that does not exist. -/
theorem decode_error_only_for_unparseable_witness :
    getRepoPullRequests (constNet (.malformed "<html>502 Bad Gateway</html>")) "acme" "svc" "t"
        ⟨[]⟩ = .ret (.error .SyntaxError) ⟨[] ++ [repoRequest "acme" "svc" "t"]⟩ ∧
    getRepoPullRequests (constNet (.json badCredentialsDoc)) "acme" "svc" "t" ⟨[]⟩ =
      .ret (.ok []) ⟨[] ++ [repoRequest "acme" "svc" "t"]⟩ ∧
    getRepoPullRequests (constNet (.json notFoundDoc)) "acme" "svc" "t" ⟨[]⟩ =
      .ret (.ok []) ⟨[] ++ [repoRequest "acme" "svc" "t"]⟩ :=
  ⟨(decode_error_only_for_unparseable
      (constNet (.malformed "<html>502 Bad Gateway</html>")) "t" ⟨[]⟩).1 "acme" "svc" _ rfl,
    (decode_error_only_for_unparseable (constNet (.json badCredentialsDoc)) "t" ⟨[]⟩).2.1
      "acme" "svc" badCredentialsDoc rfl (by decide),
    (decode_error_only_for_unparseable (constNet (.json notFoundDoc)) "t" ⟨[]⟩).2.1
      "acme" "svc" notFoundDoc rfl (by decide)⟩

/-- C6 at an answer that mixes a full node with two nodes without author, review decision
and reviews (one with the members `null` or empty, one without the members). -/
theorem bare_nodes_are_mapped_witness :
    fitsRepoQuery mixedDoc = true ∧
    (∃ x, decodePRNode .repo (.obj ghostMembers) PRNode.zero = .ok x ∧
      x.PrAuthor.Username = "" ∧ x.ReviewDecision = "" ∧ x.Reviews.Nodes.elems = []) ∧
    ∃ prs w1, ∃ h : 2 < prs.length,
      getRepoPullRequests (constNet (.json mixedDoc)) "acme" "svc" "t" ⟨[]⟩ =
        .ret (.ok prs) w1 ∧
      prs[1].AuthorUserName = "" ∧ prs[1].ReviewDecision = "" ∧ prs[1].Reviews = [] ∧
      prs[1].Number = 12 ∧ prs[1].Title = "Bump deps" ∧
      prs[2].AuthorUserName = "" ∧ prs[2].ReviewDecision = "" ∧ prs[2].Reviews = [] ∧
      prs[2].Number = 12 ∧ prs[2].ChangedFiles = 1 := by
  refine ⟨by decide,
    ((bare_nodes_are_mapped (constNet (.json mixedDoc)) "t" ⟨[]⟩).2.2 .repo ghostMembers
      (by decide) (by decide)).2, ?_⟩
  obtain ⟨prs, w1, heq, hall⟩ :=
    (bare_nodes_are_mapped (constNet (.json mixedDoc)) "t" ⟨[]⟩).1 "acme" "svc" mixedDoc rfl
      (by decide)
  obtain ⟨hlen, hnodes⟩ := hall [fullNode, .obj ghostMembers, .obj bareMembers] rfl
  have h2 : 2 < prs.length := by rw [hlen]; decide
  have g := hnodes 1 (by omega) (by decide) ghostMembers rfl (by decide)
  have b := hnodes 2 h2 (by decide) bareMembers rfl (by decide)
  exact ⟨prs, w1, h2, heq, g.1, g.2.1, g.2.2.1, g.2.2.2.1.trans (by decide),
    g.2.2.2.2.1.trans (by decide), b.1, b.2.1, b.2.2.1, b.2.2.2.1.trans (by decide),
    b.2.2.2.2.2.2.2.2.2.2.trans (by decide)⟩

/-- C3 at the organization `acme` against `healthyNet`: the method returns, three
requests were issued, and the organization comes back populated. -/
theorem load_populates_every_target_witness :
    LoadOpenPullRequests healthyNet acme "t" ⟨[]⟩ =
      .ret none acmeLoaded ⟨requestsFor acme "t"⟩ ∧
    (⟨requestsFor acme "t"⟩ : World).sent = [] ++ requestsFor acme "t" ∧
    acmeLoaded.Name = acme.Name :=
  ⟨by decide,
    (load_populates_every_target healthyNet acme "t" ⟨[]⟩ none acmeLoaded
      ⟨requestsFor acme "t"⟩ (by decide)).1,
    (load_populates_every_target healthyNet acme "t" ⟨[]⟩ none acmeLoaded
      ⟨requestsFor acme "t"⟩ (by decide)).2.1⟩

/-- C4 at the organization `acme`: when the round trip for its second repository fails,
the process exits after two requests with the team member untouched; when the answer to
the user query is not JSON, it exits after three requests. -/
theorem fetch_failure_ends_invocation_witness :
    (∃ org1, LoadOpenPullRequests webDownNet acme "t" ⟨[]⟩ =
        .fatal org1 ⟨[] ++ (requestsFor acme "t").take (1 + 1)⟩ ∧
      org1.TeamMembers = acme.TeamMembers) ∧
    (∃ org1, LoadOpenPullRequests garbledUserNet acme "t" ⟨[]⟩ =
        .fatal org1 ⟨[] ++ (requestsFor acme "t").take (acme.Repositories.length + 0 + 1)⟩ ∧
      org1.TeamMembers.drop 0 = acme.TeamMembers.drop 0) := by
  constructor
  · obtain ⟨org1, heq, _, _, _, hmem⟩ :=
      (fetch_failure_ends_invocation webDownNet acme "t" ⟨[]⟩).2.1 1 (by decide)
        (by
          intro i hi hik
          have h0 : i = 0 := by omega
          subst h0
          rfl)
        (by decide)
    exact ⟨org1, heq, hmem⟩
  · obtain ⟨org1, heq, _, _, _, hmem⟩ :=
      (fetch_failure_ends_invocation garbledUserNet acme "t" ⟨[]⟩).2.2 0 (by decide)
        (by
          intro i hi
          have h2 : i < 2 := hi
          interval_cases i <;> rfl)
        (by intro j _ hj; omega)
        (by decide)
    exact ⟨org1, heq, hmem⟩

/-- C7 at the file `GITHUB_TOKEN=ghp_file`, with `ghp_env` in the environment. -/
theorem dotenv_value_keeps_newline_witness :
    loadValueFromDotEnvFile
        (dotEnvOS (some ("GITHUB_TOKEN=" ++ "ghp_file" ++ "\n")) fun _ => "ghp_env")
        "GITHUB_TOKEN" = .ret ("ghp_file" ++ "\n") ∧
    "ghp_file" ++ "\n" ≠ "ghp_file" :=
  dotenv_value_keeps_newline "ghp_file" (fun _ => "ghp_env") (by decide) (by decide)

/-- C8 at a `.env` lookup that prints nothing, with and without the environment
variable. -/
theorem empty_lookup_falls_back_witness :
    loadValueFromDotEnvFile (sampleOS "" "ghp_env") "GITHUB_TOKEN" = .ret "ghp_env" ∧
    loadValueFromDotEnvFile (sampleOS "" "") "GITHUB_TOKEN" = .ret "" :=
  ⟨(empty_lookup_falls_back (sampleOS "" "ghp_env") "GITHUB_TOKEN" rfl).1 "ghp_env" rfl
      (by decide),
    (empty_lookup_falls_back (sampleOS "" "") "GITHUB_TOKEN" rfl).2 rfl⟩

/-- C9 at the scenario of §8: two pull requests, the first with two approvals and no
rejection. -/
theorem summary_counts_reviews_witness :
    (summarizeRepository "svc" scenarioPRs).TotalOpenPRs = 2 ∧
    (summarizeRepository "svc" scenarioPRs).OpenPRs.length = 2 ∧
    ∃ h : 0 < (summarizeRepository "svc" scenarioPRs).OpenPRs.length,
      (summarizeRepository "svc" scenarioPRs).OpenPRs[0].Approvals = 2 ∧
      (summarizeRepository "svc" scenarioPRs).OpenPRs[0].Rejections = 0 :=
  ⟨(summary_counts_reviews "svc" scenarioPRs).2.1,
    (summary_counts_reviews "svc" scenarioPRs).2.2.1,
    by decide,
    ((summary_counts_reviews "svc" scenarioPRs).2.2.2.1 0 (by decide) (by decide)).2.2.1,
    ((summary_counts_reviews "svc" scenarioPRs).2.2.2.1 0 (by decide) (by decide)).2.2.2.1⟩

end PrNotify
